import Mathlib

/-!
Verification development for the fuzzy-fishstick to-do service backend
(back-end/main.go).  The recurrence engine, pattern validator, and the
store workflow operations are embedded shallowly:

* Go `time.Time` is modelled by `GoTime`: civil calendar fields plus a
  seconds-of-day component.  Go `AddDate` is modelled by `addDate`,
  which follows the documented `time.Date` normalization semantics
  (out-of-range months are folded into the year, out-of-range days roll
  over into adjacent months).  Comparison (`Before`) and weekday follow
  the proleptic Gregorian day count with January 1 of year 1 a Monday,
  matching Go's absolute-time definitions.
* The in-memory store (Go maps guarded by one mutex) is modelled by
  association lists keyed by id; each handler becomes a pure function
  from store (plus the current instant, replacing `time.Now()`) to
  store and response.  The unbounded `for` loop in
  `calculateNextDueDate` is given an explicit fuel parameter; exhausting
  the fuel (`none`) models divergence of the Go loop.
-/

namespace TodoSvc

/-- Leap year test, as in Go `isLeap`:
year%4 == 0 && (year%100 != 0 || year%400 == 0). -/
def isLeap (y : Int) : Bool :=
  decide (y % 4 = 0 ∧ (y % 100 ≠ 0 ∨ y % 400 = 0))

/-- Number of days of month m (1..12) of year y. -/
def daysInMonth (y : Int) (m : Nat) : Nat :=
  if m = 2 then (if isLeap y then 29 else 28)
  else if m = 4 ∨ m = 6 ∨ m = 9 ∨ m = 11 then 30
  else 31

/-- Days in year y strictly before the first day of month m (1..12). -/
def daysBeforeMonth (y : Int) (m : Nat) : Int :=
  (if m = 1 then 0
   else if m = 2 then 31
   else if m = 3 then 59
   else if m = 4 then 90
   else if m = 5 then 120
   else if m = 6 then 151
   else if m = 7 then 181
   else if m = 8 then 212
   else if m = 9 then 243
   else if m = 10 then 273
   else if m = 11 then 304
   else 334)
  + (if 2 < m ∧ isLeap y then 1 else 0)

/-- Proleptic Gregorian day number of civil date (y, m, d): the number of
days since January 1 of year 1 (which gets number 0).  Linear in d, so it
is also meaningful for out-of-range day values. -/
def daysFromCivil (y : Int) (m : Nat) (d : Int) : Int :=
  365 * (y - 1) + (y - 1) / 4 - (y - 1) / 100 + (y - 1) / 400
    + daysBeforeMonth y m + (d - 1)

/-- Model of Go `time.Time`: a civil date plus seconds of day.
Canonical values keep month in 1..12 and day in 1..daysInMonth. -/
structure GoTime where
  year : Int
  month : Nat
  day : Int
  tod : Nat
deriving Repr, DecidableEq

/-- Absolute day number of an instant. -/
def absDay (t : GoTime) : Int := daysFromCivil t.year t.month t.day

/-- Go `t1.Before(t2)`: strict comparison of instants. -/
def Before (t1 t2 : GoTime) : Prop :=
  absDay t1 < absDay t2 ∨ (absDay t1 = absDay t2 ∧ t1.tod < t2.tod)

instance (t1 t2 : GoTime) : Decidable (Before t1 t2) := by
  unfold Before; infer_instance

/-- Day-of-month normalization used by Go `time.Date`: roll an
out-of-range day value into adjacent months.  The fuel bounds the number
of month hops; callers supply ample fuel. -/
def normDateAux : Nat → Int → Nat → Int → Int × Nat × Int
  | 0, y, m, d => (y, m, d)
  | Nat.succ fuel, y, m, d =>
    if (daysInMonth y m : Int) < d then
      (if m = 12 then normDateAux fuel (y + 1) 1 (d - 31)
       else normDateAux fuel y (m + 1) (d - daysInMonth y m))
    else if d < 1 then
      (if m = 1 then normDateAux fuel (y - 1) 12 (d + 31)
       else normDateAux fuel y (m - 1) (d + daysInMonth y (m - 1)))
    else (y, m, d)

/-- Go `t.AddDate(years, months, days)`: add the given counts to the
civil fields and renormalize per the `time.Date` rules (months fold into
the year first, then the day-of-month rolls over). -/
def addDate (t : GoTime) (years months days : Int) : GoTime :=
  let ym : Int := (t.month : Int) - 1 + months
  let y1 : Int := t.year + years + ym / 12
  let m1 : Nat := (ym % 12).toNat + 1
  let d1 : Int := t.day + days
  let r := normDateAux (d1.natAbs + 2) y1 m1 d1
  ⟨r.1, r.2.1, r.2.2, t.tod⟩

/-- Go `t.Weekday()` as a number, Sunday = 0 .. Saturday = 6 (January 1
of year 1 is a Monday in the proleptic Gregorian calendar). -/
def weekday (t : GoTime) : Nat := ((absDay t + 1) % 7).toNat

/-- A canonical (normalized) Go time value. -/
def IsNormDate (t : GoTime) : Prop :=
  1 ≤ t.month ∧ t.month ≤ 12 ∧ 1 ≤ t.day ∧ t.day ≤ (daysInMonth t.year t.month : Int)

instance (t : GoTime) : Decidable (IsNormDate t) := by
  unfold IsNormDate; infer_instance

/-- RecurrencePattern from main.go. -/
structure RecurrencePattern where
  frequency : String
  interval : Int
  daysOfWeek : List String
deriving Repr, DecidableEq

/-- The weekday-name table of `calculateNextWeeklyDate` (Go `dayMap`). -/
def dayMap (s : String) : Option Nat :=
  if s = "Sunday" then some 0
  else if s = "Monday" then some 1
  else if s = "Tuesday" then some 2
  else if s = "Wednesday" then some 3
  else if s = "Thursday" then some 4
  else if s = "Friday" then some 5
  else if s = "Saturday" then some 6
  else none

/-- The `targetDays` set built by `calculateNextWeeklyDate`: weekday
numbers of the recognized entries of daysOfWeek. -/
def targetDaysOf (daysOfWeek : List String) : List Nat :=
  daysOfWeek.filterMap dayMap

/-- The day-by-day scan of `calculateNextWeeklyDate`: starting at cur,
return the first of the next k days whose weekday is in targets. -/
def weeklyScanLoop : Nat → List Nat → GoTime → Option GoTime
  | 0, _, _ => none
  | Nat.succ k, targets, cur =>
    if targets.contains (weekday cur) then some cur
    else weeklyScanLoop k targets (addDate cur 0 0 1)

/-- Go `calculateNextWeeklyDate(from, daysOfWeek, interval)`: if no
daysOfWeek entry is recognized, fall back to from + 7*interval days;
otherwise scan day by day starting at from + 1 day, for up to 14 days,
returning the first day whose weekday is a target; if the scan finds
nothing, fall back to from + 7*interval days. -/
def calculateNextWeeklyDate (frm : GoTime) (daysOfWeek : List String) (interval : Int) : GoTime :=
  let targetDays := targetDaysOf daysOfWeek
  if targetDays.isEmpty then addDate frm 0 0 (7 * interval)
  else
    match weeklyScanLoop 14 targetDays (addDate frm 0 0 1) with
    | some d => d
    | none => addDate frm 0 0 (7 * interval)

/-- One iteration of the advancing loop of `calculateNextDueDate` (the Go
switch on pattern.Frequency); an unrecognized frequency leaves the
candidate date unchanged. -/
def stepFn (pattern : RecurrencePattern) (nextDate : GoTime) : GoTime :=
  if pattern.frequency = "daily" then addDate nextDate 0 0 pattern.interval
  else if pattern.frequency = "weekly" then addDate nextDate 0 0 (7 * pattern.interval)
  else if pattern.frequency = "monthly" then addDate nextDate 0 pattern.interval 0
  else nextDate

/-- The advancing loop of `calculateNextDueDate`: while nextDate is
before now, apply the frequency step.  The fuel bounds the number of
iterations; none models a diverging Go loop. -/
def nextDueLoop (fuel : Nat) (now : GoTime) (pattern : RecurrencePattern) (nextDate : GoTime) : Option GoTime :=
  match fuel with
  | 0 => none
  | Nat.succ fuel =>
    if Before nextDate now then nextDueLoop fuel now pattern (stepFn pattern nextDate)
    else some nextDate

/-- Go `calculateNextDueDate(startDate, pattern)` with `time.Now()`
lifted to the parameter now and the unbounded loop given fuel. -/
def calculateNextDueDate (fuel : Nat) (now : GoTime) (startDate : GoTime) (pattern : RecurrencePattern) : Option GoTime :=
  if pattern.frequency = "weekly" ∧ pattern.daysOfWeek ≠ [] then
    some (calculateNextWeeklyDate now pattern.daysOfWeek pattern.interval)
  else nextDueLoop fuel now pattern startDate

/-- The iterated advancing sequence: element k is the anchor advanced by
k frequency steps. -/
def dueSeq (pattern : RecurrencePattern) (anchor : GoTime) : Nat → GoTime
  | 0 => anchor
  | Nat.succ k => stepFn pattern (dueSeq pattern anchor k)

/-- TodoItem from main.go. -/
structure TodoItem where
  id : Int
  title : String
  description : String
  assignedTo : List String
  completed : Bool
  position : Int
  isRecurring : Bool
  recurrenceId : Option Int
  dueDate : Option GoTime
  completedAt : Option GoTime
  createdAt : GoTime
deriving Repr, DecidableEq

/-- RecurringItemDefinition from main.go. -/
structure RecurringItemDefinition where
  id : Int
  title : String
  description : String
  assignedTo : List String
  pattern : RecurrencePattern
  startDate : GoTime
  createdAt : GoTime
deriving Repr, DecidableEq

/-- The in-memory Store: the two id-keyed collections and the two id
counters.  Go maps become association lists keyed by id. -/
structure Store where
  todos : List (Int × TodoItem)
  recurringDefs : List (Int × RecurringItemDefinition)
  nextTodoID : Int
  nextRecurringID : Int
deriving Repr, DecidableEq

/-- Map read m[k]. -/
def mapLookup {α : Type} (k : Int) : List (Int × α) → Option α
  | [] => none
  | p :: rest => if p.1 = k then some p.2 else mapLookup k rest

/-- Map write m[k] = v: replace the entry if the key is present,
otherwise add it. -/
def mapInsert {α : Type} (k : Int) (v : α) (l : List (Int × α)) : List (Int × α) :=
  match mapLookup k l with
  | some _ => l.map (fun p => if p.1 = k then (k, v) else p)
  | none => l ++ [(k, v)]

/-- Map deletion delete(m, k). -/
def mapErase {α : Type} (k : Int) (l : List (Int × α)) : List (Int × α) :=
  l.filter (fun p => decide (p.1 ≠ k))

/-- The membership test of the Go validDays set literal in
`validateRecurrencePattern`. -/
def validDays (day : String) : Bool :=
  decide (day = "Sunday" ∨ day = "Monday" ∨ day = "Tuesday" ∨ day = "Wednesday"
    ∨ day = "Thursday" ∨ day = "Friday" ∨ day = "Saturday")

/-- Go `validateRecurrencePattern`: checks frequency is one of
daily/weekly/monthly, interval at least 1, and (for weekly with a
non-empty daysOfWeek) every entry is a canonical weekday name. -/
def validateRecurrencePattern (pattern : RecurrencePattern) : Except String Unit :=
  if ¬ (pattern.frequency = "daily" ∨ pattern.frequency = "weekly" ∨ pattern.frequency = "monthly") then
    Except.error "invalid frequency: must be daily, weekly, or monthly"
  else if pattern.interval < 1 then
    Except.error "interval must be at least 1"
  else if pattern.frequency = "weekly" ∧ 0 < pattern.daysOfWeek.length
      ∧ pattern.daysOfWeek.any (fun day => ! validDays day) then
    Except.error "invalid day of week"
  else Except.ok ()

/-- Go `validateTodoItem`: the title must be non-empty. -/
def validateTodoItem (todo : TodoItem) : Except String Unit :=
  if todo.title = "" then Except.error "title is required" else Except.ok ()

/-- Go `validateRecurringDefinition`: non-empty title, then a valid
pattern. -/
def validateRecurringDefinition (d : RecurringItemDefinition) : Except String Unit :=
  if d.title = "" then Except.error "title is required"
  else
    match validateRecurrencePattern d.pattern with
    | Except.error e => Except.error ("invalid pattern: " ++ e)
    | Except.ok _ => Except.ok ()

/-- The field updates of the Go `updateTodo` handler applied to the
stored todo: overwrite title/description/assignedTo/completed, stamp
completedAt on completion if not yet set, and overwrite dueDate only
when the payload carries one. -/
def applyTodoUpdate (now : GoTime) (updates todo : TodoItem) : TodoItem :=
  let todo1 := { todo with
    title := updates.title
    description := updates.description
    assignedTo := updates.assignedTo
    completed := updates.completed }
  let todo2 :=
    if updates.completed = true ∧ todo.completedAt = none
    then { todo1 with completedAt := some now } else todo1
  match updates.dueDate with
  | some d => { todo2 with dueDate := some d }
  | none => todo2

/-- Go `updateTodo` handler body (after request decoding): validate the
payload, look up the id, apply the field updates, and respond with the
updated todo. -/
def updateTodo (now : GoTime) (s : Store) (id : Int) (updates : TodoItem) : Store × Except String TodoItem :=
  match validateTodoItem updates with
  | Except.error e => (s, Except.error e)
  | Except.ok _ =>
    match mapLookup id s.todos with
    | none => (s, Except.error "Todo not found")
    | some todo =>
      ({ s with todos := mapInsert id (applyTodoUpdate now updates todo) s.todos },
        Except.ok (applyTodoUpdate now updates todo))

/-- Go `createRecurringDef` handler body: validate, store the new
definition under the next definition id, compute the first due date, and
store one new linked TodoItem at the end of the list; the response is
the definition.  The outer Option models divergence of the due-date
loop. -/
def createRecurringDef (fuel : Nat) (now : GoTime) (s : Store) (payload : RecurringItemDefinition) :
    Option (Store × Except String RecurringItemDefinition) :=
  match validateRecurringDefinition payload with
  | Except.error e => some (s, Except.error e)
  | Except.ok _ =>
    let d : RecurringItemDefinition := { payload with id := s.nextRecurringID, createdAt := now }
    let s1 : Store := { s with
      recurringDefs := mapInsert d.id d s.recurringDefs
      nextRecurringID := s.nextRecurringID + 1 }
    match calculateNextDueDate fuel now d.startDate d.pattern with
    | none => none
    | some nextDueDate =>
      let todo : TodoItem := {
        id := s1.nextTodoID
        title := d.title
        description := d.description
        assignedTo := d.assignedTo
        completed := false
        position := (s1.todos.length : Int)
        isRecurring := true
        recurrenceId := some d.id
        dueDate := some nextDueDate
        completedAt := none
        createdAt := now }
      some ({ s1 with
        todos := mapInsert todo.id todo s1.todos
        nextTodoID := s1.nextTodoID + 1 }, Except.ok d)

/-- The per-todo propagation step of `updateRecurringDef`: copy
title/description/assignedTo onto a linked, not-completed todo. -/
def propagateDef (id : Int) (d : RecurringItemDefinition) (t : TodoItem) : TodoItem :=
  if t.recurrenceId = some id ∧ t.completed = false then
    { t with title := d.title, description := d.description, assignedTo := d.assignedTo }
  else t

/-- Go `updateRecurringDef` handler body: validate, look up the
definition, overwrite its mutable fields, and propagate
title/description/assignedTo to all linked not-completed todos. -/
def updateRecurringDef (s : Store) (id : Int) (updates : RecurringItemDefinition) :
    Store × Except String RecurringItemDefinition :=
  match validateRecurringDefinition updates with
  | Except.error e => (s, Except.error e)
  | Except.ok _ =>
    match mapLookup id s.recurringDefs with
    | none => (s, Except.error "Recurring definition not found")
    | some d0 =>
      let d : RecurringItemDefinition := { d0 with
        title := updates.title
        description := updates.description
        assignedTo := updates.assignedTo
        pattern := updates.pattern }
      ({ s with
        recurringDefs := mapInsert id d s.recurringDefs
        todos := s.todos.map (fun p => (p.1, propagateDef id d p.2)) }, Except.ok d)

/-- The per-todo unlink step of `deleteRecurringDef`: clear the
recurrence link of a todo referencing the deleted id. -/
def unlinkTodo (id : Int) (t : TodoItem) : TodoItem :=
  if t.recurrenceId = some id then { t with recurrenceId := none, isRecurring := false }
  else t

/-- Go `deleteRecurringDef` handler body: delete the definition and
clear isRecurring/recurrenceId on every todo referencing it. -/
def deleteRecurringDef (s : Store) (id : Int) : Store × Except String Unit :=
  match mapLookup id s.recurringDefs with
  | none => (s, Except.error "Recurring definition not found")
  | some _ =>
    ({ s with
      recurringDefs := mapErase id s.recurringDefs
      todos := s.todos.map (fun p => (p.1, unlinkTodo id p.2)) }, Except.ok ())

/-- Go `convertTodoRecurring` handler body.  With toRecurring the
supplied pattern is validated first; then a definition seeded from the
todo is stored and the todo is linked to it with a fresh due date.
Without toRecurring the todo is unlinked and its due date cleared. -/
def convertTodoRecurring (fuel : Nat) (now : GoTime) (s : Store) (id : Int)
    (toRecurring : Bool) (pattern : RecurrencePattern) : Option (Store × Except String TodoItem) :=
  if toRecurring then
    match validateRecurrencePattern pattern with
    | Except.error e => some (s, Except.error e)
    | Except.ok _ =>
      match mapLookup id s.todos with
      | none => some (s, Except.error "Todo not found")
      | some todo =>
        let d : RecurringItemDefinition := {
          id := s.nextRecurringID
          title := todo.title
          description := todo.description
          assignedTo := todo.assignedTo
          pattern := pattern
          startDate := now
          createdAt := now }
        let s1 : Store := { s with
          recurringDefs := mapInsert d.id d s.recurringDefs
          nextRecurringID := s.nextRecurringID + 1 }
        match calculateNextDueDate fuel now d.startDate d.pattern with
        | none => none
        | some nextDueDate =>
          let todo1 := { todo with
            isRecurring := true
            recurrenceId := some d.id
            dueDate := some nextDueDate }
          some ({ s1 with todos := mapInsert id todo1 s1.todos }, Except.ok todo1)
  else
    match mapLookup id s.todos with
    | none => some (s, Except.error "Todo not found")
    | some todo =>
      let todo1 := { todo with
        isRecurring := false
        recurrenceId := none
        dueDate := none }
      some ({ s with todos := mapInsert id todo1 s.todos }, Except.ok todo1)

/-- A pattern accepted by the validator. -/
def ValidPattern (p : RecurrencePattern) : Prop :=
  (p.frequency = "daily" ∨ p.frequency = "weekly" ∨ p.frequency = "monthly")
    ∧ 1 ≤ p.interval
    ∧ (p.frequency = "weekly" → ∀ day ∈ p.daysOfWeek, validDays day = true)

instance (p : RecurrencePattern) : Decidable (ValidPattern p) := by
  unfold ValidPattern; infer_instance

/-- A pattern the claims call invalid: unknown frequency, interval below
1, or (weekly with a non-empty set) a non-canonical weekday name. -/
def BadPattern (p : RecurrencePattern) : Prop :=
  ¬ (p.frequency = "daily" ∨ p.frequency = "weekly" ∨ p.frequency = "monthly")
    ∨ p.interval < 1
    ∨ (p.frequency = "weekly" ∧ p.daysOfWeek ≠ [] ∧ ∃ day ∈ p.daysOfWeek, validDays day = false)

/-- Sequential application of updateTodo requests, each with its own
current instant, id, and payload. -/
def applyUpdates (s : Store) : List (GoTime × Int × TodoItem) → Store
  | [] => s
  | u :: rest => applyUpdates (updateTodo u.1 s u.2.1 u.2.2).1 rest

/-- The instant t falls on one of the named weekdays. -/
def dayNameMatches (daysOfWeek : List String) (t : GoTime) : Prop :=
  ∃ name ∈ daysOfWeek, dayMap name = some (weekday t)

/-- Advancing an instant by one calendar day, iterated i times (the scan
step of calculateNextWeeklyDate). -/
def nextDay (t : GoTime) : GoTime := addDate t 0 0 1

/-- daysFromCivil is linear in the day argument. -/
theorem dfc_linear (y : Int) (m : Nat) (d e : Int) :
    daysFromCivil y m e = daysFromCivil y m d + (e - d) := by
  unfold daysFromCivil; ring

/-- Every month has at least 28 days. -/
theorem dim_ge_28 (y : Int) (m : Nat) : 28 ≤ daysInMonth y m := by
  unfold daysInMonth
  split
  · split <;> omega
  · split <;> omega

/-- Every month has at most 31 days. -/
theorem dim_le_31 (y : Int) (m : Nat) : daysInMonth y m ≤ 31 := by
  unfold daysInMonth
  split
  · split <;> omega
  · split <;> omega

/-- Within a year, the day count to the start of month m+1 exceeds the
one to month m by the length of month m. -/
theorem dbm_step (y : Int) (m : Nat) (h1 : 1 ≤ m) (h2 : m ≤ 11) :
    daysBeforeMonth y (m + 1) = daysBeforeMonth y m + daysInMonth y m := by
  interval_cases m <;> cases h : isLeap y <;>
    simp [daysBeforeMonth, daysInMonth, h]

/-- Crossing a December 31 boundary advances the day count by 31. -/
theorem dfc_year_step (y : Int) (d : Int) :
    daysFromCivil (y + 1) 1 d = daysFromCivil y 12 d + 31 := by
  by_cases hl : y % 4 = 0 ∧ (y % 100 ≠ 0 ∨ y % 400 = 0) <;>
    simp [daysFromCivil, daysBeforeMonth, isLeap, hl] <;> omega

/-- Stepping from month m (at most 11) to month m+1 advances the day
count by the length of month m. -/
theorem dfc_month_step (y : Int) (m : Nat) (d : Int) (h1 : 1 ≤ m) (h2 : m ≤ 11) :
    daysFromCivil y (m + 1) d = daysFromCivil y m d + daysInMonth y m := by
  unfold daysFromCivil
  rw [dbm_step y m h1 h2]
  ring

/-- December has 31 days. -/
theorem dim_december (y : Int) : daysInMonth y 12 = 31 := by
  simp [daysInMonth]

/-- normDateAux does not change the absolute day number. -/
theorem normDateAux_dfc (fuel : Nat) : ∀ (y : Int) (m : Nat) (d : Int), 1 ≤ m → m ≤ 12 →
    daysFromCivil (normDateAux fuel y m d).1 (normDateAux fuel y m d).2.1 (normDateAux fuel y m d).2.2
      = daysFromCivil y m d := by
  induction fuel with
  | zero => intro y m d h1 h2; rfl
  | succ n ih =>
    intro y m d h1 h2
    unfold normDateAux
    split
    · rename_i hgt
      split
      · rename_i hm
        subst hm
        rw [ih (y + 1) 1 (d - 31) (by omega) (by omega)]
        have ha := dfc_year_step y (d - 31)
        have hb := dfc_linear y 12 d (d - 31)
        omega
      · rename_i hm
        rw [ih y (m + 1) (d - (daysInMonth y m : Int)) (by omega) (by omega)]
        have ha := dfc_month_step y m (d - (daysInMonth y m : Int)) h1 (by omega)
        have hb := dfc_linear y m d (d - (daysInMonth y m : Int))
        omega
    · split
      · rename_i hle hlt
        split
        · rename_i hm
          subst hm
          rw [ih (y - 1) 12 (d + 31) (by omega) (by omega)]
          have ha := dfc_year_step (y - 1) (d + 31)
          have hy : y - 1 + 1 = y := by ring
          rw [hy] at ha
          have hb := dfc_linear y 1 d (d + 31)
          omega
        · rename_i hm
          rw [ih y (m - 1) (d + (daysInMonth y (m - 1) : Int)) (by omega) (by omega)]
          have ha := dfc_month_step y (m - 1) d (by omega) (by omega)
          have hm1 : m - 1 + 1 = m := by omega
          rw [hm1] at ha
          have hb := dfc_linear y (m - 1) d (d + (daysInMonth y (m - 1) : Int))
          omega
      · rfl

/-- With enough fuel and a positive day value, normDateAux yields a
canonical date. -/
theorem normDateAux_norm (fuel : Nat) : ∀ (y : Int) (m : Nat) (d : Int),
    1 ≤ m → m ≤ 12 → 1 ≤ d → d ≤ (fuel : Int) →
    (1 ≤ (normDateAux fuel y m d).2.1 ∧ (normDateAux fuel y m d).2.1 ≤ 12
      ∧ 1 ≤ (normDateAux fuel y m d).2.2
      ∧ (normDateAux fuel y m d).2.2
          ≤ (daysInMonth (normDateAux fuel y m d).1 (normDateAux fuel y m d).2.1 : Int)) := by
  induction fuel with
  | zero => intro y m d h1 h2 h3 h4; omega
  | succ n ih =>
    intro y m d h1 h2 h3 h4
    unfold normDateAux
    split
    · rename_i hgt
      have h28 := dim_ge_28 y m
      split
      · rename_i hm
        subst hm
        rw [dim_december] at hgt h28
        exact ih (y + 1) 1 (d - 31) (by omega) (by omega) (by omega) (by push_cast at h4 ⊢; omega)
      · rename_i hm
        exact ih y (m + 1) (d - (daysInMonth y m : Int)) (by omega) (by omega) (by omega)
          (by push_cast at h4 ⊢; omega)
    · split
      · rename_i hle hlt
        omega
      · rename_i hle hge
        refine ⟨h1, h2, h3, ?_⟩
        show d ≤ (daysInMonth y m : Int)
        omega

/-- Unfolding addDate for nonnegative month and day offsets: no year
offset, the month sum is normalized into the year, and the day value is
renormalized; the absolute day number is the day count of the resulting
civil triple. -/
theorem addDate_spec (t : GoTime) (i nd : Int) (hi : 0 ≤ i) (hn : 0 ≤ nd) (ht : IsNormDate t) :
    absDay (addDate t 0 i nd)
        = daysFromCivil (t.year + ((t.month : Int) - 1 + i) / 12)
            ((((t.month : Int) - 1 + i) % 12).toNat + 1) (t.day + nd)
      ∧ IsNormDate (addDate t 0 i nd) ∧ (addDate t 0 i nd).tod = t.tod := by
  obtain ⟨h1, h2, h3, h4⟩ := ht
  have hm1l : 1 ≤ (((t.month : Int) - 1 + i) % 12).toNat + 1 := by omega
  have hm1r : (((t.month : Int) - 1 + i) % 12).toNat + 1 ≤ 12 := by omega
  have hd1 : (1 : Int) ≤ t.day + nd := by omega
  have hfuel : t.day + nd ≤ (((t.day + nd).natAbs + 2 : Nat) : Int) := by omega
  have hdfc := normDateAux_dfc ((t.day + nd).natAbs + 2)
    (t.year + 0 + ((t.month : Int) - 1 + i) / 12) ((((t.month : Int) - 1 + i) % 12).toNat + 1)
    (t.day + nd) hm1l hm1r
  have hnorm := normDateAux_norm ((t.day + nd).natAbs + 2)
    (t.year + 0 + ((t.month : Int) - 1 + i) / 12) ((((t.month : Int) - 1 + i) % 12).toNat + 1)
    (t.day + nd) hm1l hm1r hd1 hfuel
  simp only [addDate]
  refine ⟨?_, ?_, ?_⟩
  · show daysFromCivil _ _ _ = _
    rw [hdfc]
    have hz : t.year + 0 + ((t.month : Int) - 1 + i) / 12
        = t.year + ((t.month : Int) - 1 + i) / 12 := by ring
    rw [hz]
  · unfold IsNormDate
    exact ⟨hnorm.1, hnorm.2.1, hnorm.2.2.1, hnorm.2.2.2⟩
  · trivial

/-- Adding nd days moves the absolute day number forward by exactly nd
and keeps the date canonical and the clock time unchanged. -/
theorem addDate_days_spec (t : GoTime) (nd : Int) (hn : 0 ≤ nd) (ht : IsNormDate t) :
    absDay (addDate t 0 0 nd) = absDay t + nd
      ∧ IsNormDate (addDate t 0 0 nd) ∧ (addDate t 0 0 nd).tod = t.tod := by
  have h := addDate_spec t 0 nd le_rfl hn ht
  obtain ⟨h1, h2, h3, h4⟩ := ht
  have e1 : t.year + ((t.month : Int) - 1 + 0) / 12 = t.year := by omega
  have e2 : ((((t.month : Int) - 1 + 0)) % 12).toNat + 1 = t.month := by omega
  rw [e1, e2] at h
  have hlin := dfc_linear t.year t.month t.day (t.day + nd)
  refine ⟨?_, h.2.1, h.2.2⟩
  rw [h.1]
  show daysFromCivil _ _ _ = absDay t + nd
  unfold absDay
  omega

/-- Jumping n months forward from a canonical month advances the start
of month by at least 28 days per month. -/
theorem monthIndex_ge (n : Nat) : ∀ (y : Int) (m : Nat), 1 ≤ m → m ≤ 12 → ∀ d : Int,
    daysFromCivil y m d + 28 * (n : Int)
      ≤ daysFromCivil (y + ((m - 1 + n) / 12 : Nat)) ((m - 1 + n) % 12 + 1) d := by
  induction n with
  | zero =>
    intro y m h1 h2 d
    have e1 : (m - 1 + 0) / 12 = 0 := by omega
    have e2 : (m - 1 + 0) % 12 + 1 = m := by omega
    rw [e1, e2]
    norm_num
  | succ n ih =>
    intro y m h1 h2 d
    have hIH := ih y m h1 h2 d
    by_cases ha : (m - 1 + n) % 12 = 11
    · have e1 : (m - 1 + (n + 1)) / 12 = (m - 1 + n) / 12 + 1 := by omega
      have e2 : (m - 1 + (n + 1)) % 12 + 1 = 1 := by omega
      rw [e1, e2]
      have hys := dfc_year_step (y + ((m - 1 + n) / 12 : Nat)) d
      rw [ha] at hIH
      have ecast : y + (((m - 1 + n) / 12 + 1 : Nat) : Int)
          = y + ((m - 1 + n) / 12 : Nat) + 1 := by push_cast; ring
      rw [ecast]
      have h11 : (11 : Nat) + 1 = 12 := by norm_num
      rw [h11] at hIH
      omega
    · have e1 : (m - 1 + (n + 1)) / 12 = (m - 1 + n) / 12 := by omega
      have e2 : (m - 1 + (n + 1)) % 12 + 1 = ((m - 1 + n) % 12 + 1) + 1 := by omega
      rw [e1, e2]
      have hms := dfc_month_step (y + ((m - 1 + n) / 12 : Nat)) ((m - 1 + n) % 12 + 1) d
        (by omega) (by omega)
      have h28 := dim_ge_28 (y + ((m - 1 + n) / 12 : Nat)) ((m - 1 + n) % 12 + 1)
      omega

/-- Adding i months (i nonnegative) moves the absolute day number
forward by at least 28 days per month and keeps the date canonical. -/
theorem addDate_months_ge (t : GoTime) (i : Int) (hi : 0 ≤ i) (ht : IsNormDate t) :
    absDay t + 28 * i ≤ absDay (addDate t 0 i 0)
      ∧ IsNormDate (addDate t 0 i 0) ∧ (addDate t 0 i 0).tod = t.tod := by
  have h := addDate_spec t i 0 hi le_rfl ht
  obtain ⟨h1, h2, h3, h4⟩ := ht
  refine ⟨?_, h.2.1, h.2.2⟩
  rw [h.1]
  have e1 : ((t.month : Int) - 1 + i) / 12 = ((t.month - 1 + i.toNat) / 12 : Nat) := by omega
  have e2 : (((t.month : Int) - 1 + i) % 12).toNat + 1 = (t.month - 1 + i.toNat) % 12 + 1 := by
    omega
  rw [e1, e2]
  have hM := monthIndex_ge i.toNat t.year t.month h1 h2 (t.day + 0)
  have hl := dfc_linear t.year t.month t.day (t.day + 0)
  have ei : (i.toNat : Int) = i := by omega
  unfold absDay
  omega

/-- The weekday number is below 7. -/
theorem weekday_lt7 (t : GoTime) : weekday t < 7 := by
  unfold weekday; omega

/-- Advancing one day advances the weekday cyclically. -/
theorem weekday_nextDay (t : GoTime) (ht : IsNormDate t) :
    weekday (nextDay t) = (weekday t + 1) % 7 := by
  have h := addDate_days_spec t 1 (by norm_num) ht
  unfold nextDay weekday
  rw [h.1]
  omega

/-- The i-fold day advance adds i to the absolute day number, keeps the
date canonical, and keeps the clock time. -/
theorem nextDay_iter_spec (i : Nat) (t : GoTime) (ht : IsNormDate t) :
    absDay (nextDay^[i] t) = absDay t + i ∧ IsNormDate (nextDay^[i] t)
      ∧ (nextDay^[i] t).tod = t.tod := by
  induction i with
  | zero => exact ⟨by simp, by simpa using ht, rfl⟩
  | succ n ih =>
    rw [Function.iterate_succ_apply']
    have h := addDate_days_spec (nextDay^[n] t) 1 (by norm_num) ih.2.1
    refine ⟨?_, h.2.1, ?_⟩
    · show absDay (addDate (nextDay^[n] t) 0 0 1) = _
      rw [h.1, ih.1]
      push_cast
      ring
    · show (addDate (nextDay^[n] t) 0 0 1).tod = _
      rw [h.2.2, ih.2.2]

/-- Weekday after i day advances. -/
theorem weekday_nextDay_iter (i : Nat) (t : GoTime) (ht : IsNormDate t) :
    weekday (nextDay^[i] t) = (weekday t + i) % 7 := by
  induction i with
  | zero => simp [Nat.mod_eq_of_lt (weekday_lt7 t)]
  | succ n ih =>
    rw [Function.iterate_succ_apply']
    rw [weekday_nextDay (nextDay^[n] t) (nextDay_iter_spec n t ht).2.1, ih]
    omega

/-- List membership gives a true contains test. -/
theorem mem_contains (l : List Nat) (w : Nat) (h : w ∈ l) : l.contains w = true := by
  induction l with
  | nil => cases h
  | cons a rest ih =>
    rcases List.mem_cons.mp h with h1 | h2
    · subst h1; simp [List.contains]
    · simp [List.contains]
      right
      simpa [List.contains] using ih h2

/-- A false contains test refutes membership. -/
theorem contains_false_not_mem (l : List Nat) (w : Nat) (h : l.contains w = false) : ¬ w ∈ l := by
  intro hw
  rw [mem_contains l w hw] at h
  cases h

/-- Valid weekday names are exactly the domain of dayMap. -/
theorem validDays_dayMap (name : String) (h : validDays name = true) :
    ∃ w, w < 7 ∧ dayMap name = some w := by
  have h7 : name = "Sunday" ∨ name = "Monday" ∨ name = "Tuesday" ∨ name = "Wednesday"
      ∨ name = "Thursday" ∨ name = "Friday" ∨ name = "Saturday" := by
    simpa [validDays] using h
  rcases h7 with h | h | h | h | h | h | h <;> subst h <;> exact ⟨_, by norm_num, rfl⟩

/-- Membership of the targetDays set characterized by dayMap. -/
theorem targetDaysOf_mem (daysOfWeek : List String) (w : Nat) :
    w ∈ targetDaysOf daysOfWeek ↔ ∃ name ∈ daysOfWeek, dayMap name = some w := by
  unfold targetDaysOf
  simp [List.mem_filterMap]

/-- Iterating the step from an advanced anchor shifts the sequence. -/
theorem dueSeq_shift (p : RecurrencePattern) (t : GoTime) (k : Nat) :
    dueSeq p (stepFn p t) k = dueSeq p t (k + 1) := by
  induction k with
  | zero => rfl
  | succ n ih => show stepFn p (dueSeq p (stepFn p t) n) = _; rw [ih]; rfl

/-- For a recognized frequency and a positive interval, one step of the
advancing loop strictly advances the date and keeps it canonical. -/
theorem stepFn_spec (p : RecurrencePattern) (t : GoTime)
    (hf : p.frequency = "daily" ∨ p.frequency = "weekly" ∨ p.frequency = "monthly")
    (hi : 1 ≤ p.interval) (ht : IsNormDate t) :
    IsNormDate (stepFn p t) ∧ absDay t + 1 ≤ absDay (stepFn p t) := by
  unfold stepFn
  rcases hf with h | h | h
  · rw [if_pos h]
    have ha := addDate_days_spec t p.interval (by omega) ht
    exact ⟨ha.2.1, by omega⟩
  · have hnd : ¬ p.frequency = "daily" := by rw [h]; decide
    rw [if_neg hnd, if_pos h]
    have ha := addDate_days_spec t (7 * p.interval) (by omega) ht
    exact ⟨ha.2.1, by omega⟩
  · have hnd : ¬ p.frequency = "daily" := by rw [h]; decide
    have hnw : ¬ p.frequency = "weekly" := by rw [h]; decide
    rw [if_neg hnd, if_neg hnw, if_pos h]
    have ha := addDate_months_ge t p.interval (by omega) ht
    exact ⟨ha.2.1, by omega⟩

/-- The advancing loop, given enough fuel, returns the first element of
the step sequence that is not before now. -/
theorem nextDueLoop_first (fuel : Nat) : ∀ (p : RecurrencePattern) (now t : GoTime),
    (p.frequency = "daily" ∨ p.frequency = "weekly" ∨ p.frequency = "monthly") →
    1 ≤ p.interval → IsNormDate t → (absDay now - absDay t).toNat + 2 ≤ fuel →
    ∃ K, nextDueLoop fuel now p t = some (dueSeq p t K)
      ∧ (∀ j < K, Before (dueSeq p t j) now) ∧ ¬ Before (dueSeq p t K) now := by
  induction fuel with
  | zero => intro p now t hf hi ht hgap; omega
  | succ n ih =>
    intro p now t hf hi ht hgap
    unfold nextDueLoop
    by_cases hb : Before t now
    · rw [if_pos hb]
      have hs := stepFn_spec p t hf hi ht
      have hb2 : absDay t < absDay now ∨ (absDay t = absDay now ∧ t.tod < now.tod) := hb
      have hstep := hs.2
      by_cases hbs : Before (stepFn p t) now
      · have hbs2 : absDay (stepFn p t) < absDay now
            ∨ (absDay (stepFn p t) = absDay now ∧ (stepFn p t).tod < now.tod) := hbs
        have hgap2 : (absDay now - absDay (stepFn p t)).toNat + 2 ≤ n := by
          rcases hb2 with h | ⟨h, _⟩ <;> rcases hbs2 with h2 | ⟨h2, _⟩ <;> omega
        obtain ⟨K, h1, h2, h3⟩ := ih p now (stepFn p t) hf hi hs.1 hgap2
        rw [dueSeq_shift] at h1
        refine ⟨K + 1, h1, ?_, ?_⟩
        · intro j hj
          match j with
          | 0 => exact hb
          | Nat.succ j0 =>
            rw [← dueSeq_shift]
            exact h2 j0 (by omega)
        · rw [← dueSeq_shift]
          exact h3
      · have hn1 : 1 ≤ n := by omega
        refine ⟨1, ?_, ?_, ?_⟩
        · show nextDueLoop n now p (stepFn p t) = _
          match n, hn1 with
          | Nat.succ n0, _ =>
            unfold nextDueLoop
            rw [if_neg hbs]
            rfl
        · intro j hj
          match j with
          | 0 => exact hb
        · exact hbs
    · rw [if_neg hb]
      exact ⟨0, rfl, fun j hj => absurd hj (Nat.not_lt_zero j), hb⟩

/-- C1: for a daily pattern, a weekly pattern with no specific weekdays,
or a monthly pattern (with a positive interval, as the validator
guarantees), calculateNextDueDate returns the first element of the
sequence anchor, anchor+step, anchor+2*step, ... that is not before now
(with the step adding interval days, interval*7 days, or interval
calendar months with Go AddDate rollover, respectively); in particular,
an anchor that is not before now is returned unchanged. -/
theorem calculateNextDueDate_generic_first (p : RecurrencePattern) (anchor now : GoTime) (fuel : Nat)
    (hfreq : p.frequency = "daily" ∨ (p.frequency = "weekly" ∧ p.daysOfWeek = [])
      ∨ p.frequency = "monthly")
    (hint : 1 ≤ p.interval) (hanchor : IsNormDate anchor)
    (hfuel : (absDay now - absDay anchor).toNat + 2 ≤ fuel) :
    (∃ K, calculateNextDueDate fuel now anchor p = some (dueSeq p anchor K)
      ∧ (∀ j < K, Before (dueSeq p anchor j) now) ∧ ¬ Before (dueSeq p anchor K) now)
      ∧ (¬ Before anchor now → calculateNextDueDate fuel now anchor p = some anchor) := by
  have hcond : ¬ (p.frequency = "weekly" ∧ p.daysOfWeek ≠ []) := by
    rcases hfreq with h | ⟨h1, h2⟩ | h
    · intro hc
      rw [h] at hc
      exact absurd hc.1 (by decide)
    · intro hc
      exact hc.2 h2
    · intro hc
      rw [h] at hc
      exact absurd hc.1 (by decide)
  have hf3 : p.frequency = "daily" ∨ p.frequency = "weekly" ∨ p.frequency = "monthly" := by
    rcases hfreq with h | ⟨h1, _⟩ | h
    · exact Or.inl h
    · exact Or.inr (Or.inl h1)
    · exact Or.inr (Or.inr h)
  unfold calculateNextDueDate
  rw [if_neg hcond]
  constructor
  · exact nextDueLoop_first fuel p now anchor hf3 hint hanchor hfuel
  · intro hnb
    cases fuel with
    | zero => omega
    | succ n =>
      unfold nextDueLoop
      rw [if_neg hnb]

/-- Witness for C1, exercising the spec example: daily pattern with
interval 3, anchor one day before now; the result is anchor + 3 days. -/
theorem calculateNextDueDate_generic_first_witness :
    ((∃ K, calculateNextDueDate 5 ⟨2024, 1, 2, 0⟩ ⟨2024, 1, 1, 0⟩ ⟨"daily", 3, []⟩
        = some (dueSeq ⟨"daily", 3, []⟩ ⟨2024, 1, 1, 0⟩ K)
      ∧ (∀ j < K, Before (dueSeq ⟨"daily", 3, []⟩ ⟨2024, 1, 1, 0⟩ j) ⟨2024, 1, 2, 0⟩)
      ∧ ¬ Before (dueSeq ⟨"daily", 3, []⟩ ⟨2024, 1, 1, 0⟩ K) ⟨2024, 1, 2, 0⟩)
      ∧ (¬ Before ⟨2024, 1, 1, 0⟩ ⟨2024, 1, 2, 0⟩ →
          calculateNextDueDate 5 ⟨2024, 1, 2, 0⟩ ⟨2024, 1, 1, 0⟩ ⟨"daily", 3, []⟩
            = some ⟨2024, 1, 1, 0⟩))
    ∧ calculateNextDueDate 5 ⟨2024, 1, 2, 0⟩ ⟨2024, 1, 1, 0⟩ ⟨"daily", 3, []⟩
        = some ⟨2024, 1, 4, 0⟩ :=
  ⟨calculateNextDueDate_generic_first ⟨"daily", 3, []⟩ ⟨2024, 1, 1, 0⟩ ⟨2024, 1, 2, 0⟩ 5
    (by decide) (by decide) (by decide) (by decide), by decide⟩

/-- A true contains test gives membership. -/
theorem contains_true_mem (l : List Nat) (w : Nat) (h : l.contains w = true) : w ∈ l := by
  induction l with
  | nil => simp [List.contains] at h
  | cons a rest ih =>
    simp only [List.contains, List.elem] at h
    by_cases hw : w = a
    · rw [hw]; exact List.mem_cons_self a rest
    · have : (w == a) = false := by simp [hw]
      rw [this] at h
      simp only [Bool.false_or] at h
      exact List.mem_cons_of_mem a (ih h)

/-- An instant matches one of the day names exactly when the scan set
contains its weekday. -/
theorem dayNameMatches_iff (days : List String) (t : GoTime) :
    dayNameMatches days t ↔ (targetDaysOf days).contains (weekday t) = true := by
  have hmem := targetDaysOf_mem days (weekday t)
  constructor
  · intro h
    obtain ⟨name, h1, h2⟩ := h
    exact mem_contains _ _ (hmem.mpr ⟨name, h1, h2⟩)
  · intro h
    obtain ⟨name, h1, h2⟩ := hmem.mp (contains_true_mem _ _ h)
    exact ⟨name, h1, h2⟩

/-- The day-by-day scan returns the first matching day when a match
exists within the horizon. -/
theorem weeklyScanLoop_first (k : Nat) : ∀ (targets : List Nat) (cur : GoTime), IsNormDate cur →
    (∃ i, i < k ∧ targets.contains (weekday (nextDay^[i] cur)) = true) →
    ∃ i, i < k ∧ targets.contains (weekday (nextDay^[i] cur)) = true
      ∧ (∀ j, j < i → targets.contains (weekday (nextDay^[j] cur)) = false)
      ∧ weeklyScanLoop k targets cur = some (nextDay^[i] cur) := by
  induction k with
  | zero =>
    intro targets cur hn hex
    obtain ⟨i, hi, _⟩ := hex
    omega
  | succ n ih =>
    intro targets cur hn hex
    unfold weeklyScanLoop
    by_cases hc : targets.contains (weekday cur) = true
    · refine ⟨0, Nat.succ_pos n, by simpa using hc, fun j hj => absurd hj (Nat.not_lt_zero j), ?_⟩
      rw [if_pos hc]
      simp
    · have hcf : targets.contains (weekday cur) = false := by
        revert hc; cases targets.contains (weekday cur) <;> simp
      obtain ⟨i, hik, hit⟩ := hex
      match i, hik, hit with
      | 0, hik, hit =>
        rw [show nextDay^[0] cur = cur from rfl] at hit
        rw [hit] at hcf
        cases hcf
      | Nat.succ i0, hik, hit =>
        have hnc : IsNormDate (nextDay cur) := (addDate_days_spec cur 1 (by norm_num) hn).2.1
        have hex2 : ∃ i, i < n ∧ targets.contains (weekday (nextDay^[i] (nextDay cur))) = true := by
          refine ⟨i0, by omega, ?_⟩
          rw [← Function.iterate_succ_apply]
          exact hit
        obtain ⟨i1, h1, h2, h3, h4⟩ := ih targets (nextDay cur) hnc hex2
        refine ⟨i1 + 1, by omega, ?_, ?_, ?_⟩
        · rw [Function.iterate_succ_apply]
          exact h2
        · intro j hj
          match j with
          | 0 => simpa using hcf
          | Nat.succ j0 =>
            rw [Function.iterate_succ_apply]
            exact h3 j0 (by omega)
        · rw [if_neg hc]
          show weeklyScanLoop n targets (nextDay cur) = _
          rw [h4, Function.iterate_succ_apply]

/-- A non-empty canonical weekday set is matched within any 7 (hence 14)
consecutive days. -/
theorem weekly_exists_match (days : List String) (cur : GoTime)
    (hne : days ≠ []) (hcanon : ∀ day ∈ days, validDays day = true)
    (hn : IsNormDate cur) :
    ∃ i, i < 14 ∧ (targetDaysOf days).contains (weekday (nextDay^[i] cur)) = true := by
  obtain ⟨name, hname⟩ : ∃ name, name ∈ days := by
    cases days with
    | nil => exact absurd rfl hne
    | cons a l => exact ⟨a, List.mem_cons_self a l⟩
  obtain ⟨w0, hw7, hwm⟩ := validDays_dayMap name (hcanon name hname)
  have hw0 : w0 ∈ targetDaysOf days := (targetDaysOf_mem _ _).mpr ⟨name, hname, hwm⟩
  have hwc := weekday_lt7 cur
  refine ⟨(w0 + 7 - weekday cur) % 7, by omega, ?_⟩
  rw [weekday_nextDay_iter _ cur hn]
  have he : (weekday cur + (w0 + 7 - weekday cur) % 7) % 7 = w0 := by omega
  rw [he]
  exact mem_contains _ _ hw0

/-- Characterization of calculateNextWeeklyDate for a non-empty
canonical weekday set: the result is the first day strictly after frm
whose weekday is one of the named days, found within the 14-day horizon,
and does not depend on the interval. -/
theorem calculateNextWeeklyDate_char (days : List String) (interval : Int) (frm : GoTime)
    (hne : days ≠ []) (hcanon : ∀ day ∈ days, validDays day = true)
    (hn : IsNormDate frm) :
    ∃ i, i < 14
      ∧ calculateNextWeeklyDate frm days interval = nextDay^[i + 1] frm
      ∧ dayNameMatches days (nextDay^[i + 1] frm)
      ∧ (∀ j, j < i → ¬ dayNameMatches days (nextDay^[j + 1] frm)) := by
  have hnc : IsNormDate (nextDay frm) := (addDate_days_spec frm 1 (by norm_num) hn).2.1
  have hex := weekly_exists_match days (nextDay frm) hne hcanon hnc
  have hex2 : ∃ i, i < 14
      ∧ (targetDaysOf days).contains (weekday (nextDay^[i] (nextDay frm))) = true := hex
  obtain ⟨i, h14, hit, hmin, hscan⟩ :=
    weeklyScanLoop_first 14 (targetDaysOf days) (nextDay frm) hnc hex2
  have hteNE : ¬ (targetDaysOf days).isEmpty = true := by
    intro hE
    rw [List.isEmpty_iff] at hE
    rw [hE] at hit
    simp [List.contains] at hit
  refine ⟨i, h14, ?_, ?_, ?_⟩
  · unfold calculateNextWeeklyDate
    rw [if_neg hteNE]
    show (match weeklyScanLoop 14 (targetDaysOf days) (nextDay frm) with
      | some d => d
      | none => addDate frm 0 0 (7 * interval)) = _
    rw [hscan]
    rw [← Function.iterate_succ_apply]
  · rw [dayNameMatches_iff]
    rw [Function.iterate_succ_apply]
    exact hit
  · intro j hj
    rw [dayNameMatches_iff]
    rw [Function.iterate_succ_apply]
    rw [hmin j hj]
    simp

/-- C2: for a weekly pattern with a non-empty set of canonical weekday
names, calculateNextDueDate ignores the anchor loop and returns the
first instant strictly after now (scanning day by day within the 14-day
horizon) whose weekday is one of the named days; the anchor and the fuel
are arbitrary and do not influence the result. -/
theorem calculateNextDueDate_weekly_days (p : RecurrencePattern) (anchor now : GoTime) (fuel : Nat)
    (hf : p.frequency = "weekly") (hne : p.daysOfWeek ≠ [])
    (hcanon : ∀ day ∈ p.daysOfWeek, validDays day = true) (hn : IsNormDate now) :
    ∃ i, i < 14
      ∧ calculateNextDueDate fuel now anchor p = some (nextDay^[i + 1] now)
      ∧ dayNameMatches p.daysOfWeek (nextDay^[i + 1] now)
      ∧ ∀ j, j < i → ¬ dayNameMatches p.daysOfWeek (nextDay^[j + 1] now) := by
  obtain ⟨i, h14, hE, hM, hmin⟩ :=
    calculateNextWeeklyDate_char p.daysOfWeek p.interval now hne hcanon hn
  refine ⟨i, h14, ?_, hM, hmin⟩
  unfold calculateNextDueDate
  rw [if_pos ⟨hf, hne⟩, hE]

/-- Witness for C2: weekly on Friday, now a Friday (2024-05-10); the
result is found within the horizon. -/
theorem calculateNextDueDate_weekly_days_witness :
    ∃ i, i < 14
      ∧ calculateNextDueDate 0 ⟨2024, 5, 10, 0⟩ ⟨2024, 1, 1, 0⟩ ⟨"weekly", 1, ["Friday"]⟩
          = some (nextDay^[i + 1] (⟨2024, 5, 10, 0⟩ : GoTime))
      ∧ dayNameMatches ["Friday"] (nextDay^[i + 1] (⟨2024, 5, 10, 0⟩ : GoTime))
      ∧ ∀ j, j < i → ¬ dayNameMatches ["Friday"] (nextDay^[j + 1] (⟨2024, 5, 10, 0⟩ : GoTime)) :=
  calculateNextDueDate_weekly_days ⟨"weekly", 1, ["Friday"]⟩ ⟨2024, 1, 1, 0⟩ ⟨2024, 5, 10, 0⟩ 0
    rfl (by decide) (by decide) (by decide)

/-- C3: for a weekly pattern with a non-empty canonical weekday set, the
result of calculateNextDueDate does not depend on the interval field:
any two intervals (at least 1) give the same next due date. -/
theorem calculateNextDueDate_interval_not_honored (days : List String) (i1 i2 : Int)
    (anchor now : GoTime) (fuel1 fuel2 : Nat)
    (hne : days ≠ []) (hcanon : ∀ day ∈ days, validDays day = true)
    (hn : IsNormDate now) (hi1 : 1 ≤ i1) (hi2 : 1 ≤ i2) :
    calculateNextDueDate fuel1 now anchor ⟨"weekly", i1, days⟩
      = calculateNextDueDate fuel2 now anchor ⟨"weekly", i2, days⟩ := by
  unfold calculateNextDueDate
  rw [if_pos ⟨rfl, hne⟩, if_pos ⟨rfl, hne⟩]
  show some (calculateNextWeeklyDate now days i1) = some (calculateNextWeeklyDate now days i2)
  obtain ⟨a, ha14, haE, haM, haMin⟩ := calculateNextWeeklyDate_char days i1 now hne hcanon hn
  obtain ⟨b, hb14, hbE, hbM, hbMin⟩ := calculateNextWeeklyDate_char days i2 now hne hcanon hn
  have hab : a = b := by
    rcases Nat.lt_trichotomy a b with h | h | h
    · exact absurd haM (hbMin a h)
    · exact h
    · exact absurd hbM (haMin b h)
  rw [haE, hbE, hab]

/-- Witness for C3: intervals 1 and 3 give the same result. -/
theorem calculateNextDueDate_interval_not_honored_witness :
    calculateNextDueDate 0 ⟨2024, 5, 10, 0⟩ ⟨2024, 1, 1, 0⟩ ⟨"weekly", 1, ["Friday"]⟩
      = calculateNextDueDate 7 ⟨2024, 5, 10, 0⟩ ⟨2024, 1, 1, 0⟩ ⟨"weekly", 3, ["Friday"]⟩ :=
  calculateNextDueDate_interval_not_honored ["Friday"] 1 3 ⟨2024, 1, 1, 0⟩ ⟨2024, 5, 10, 0⟩ 0 7
    (by decide) (by decide) (by decide) (by decide) (by decide)

/-- A day value already in range is a fixed point of normDateAux. -/
theorem normDateAux_fixpoint (fuel : Nat) (y : Int) (m : Nat) (d : Int)
    (h1 : ¬ ((daysInMonth y m : Int) < d)) (h2 : ¬ (d < 1)) :
    normDateAux fuel y m d = (y, m, d) := by
  cases fuel with
  | zero => rfl
  | succ n =>
    unfold normDateAux
    rw [if_neg h1, if_neg h2]

/-- Adding zero months and zero days is the identity on canonical
dates. -/
theorem addDate_zero (t : GoTime) (ht : IsNormDate t) : addDate t 0 0 0 = t := by
  obtain ⟨h1, h2, h3, h4⟩ := ht
  have e1 : ((t.month : Int) - 1 + 0) / 12 = 0 := by omega
  have e2 : (((t.month : Int) - 1 + 0) % 12).toNat + 1 = t.month := by omega
  simp only [addDate]
  rw [e1, e2]
  rw [show t.day + 0 = t.day from by ring, show t.year + 0 + 0 = t.year from by ring]
  rw [normDateAux_fixpoint _ _ _ _ (by omega) (by omega)]

/-- With interval zero the advancing step is the identity. -/
theorem stepFn_zero_interval (p : RecurrencePattern) (t : GoTime)
    (hi : p.interval = 0) (ht : IsNormDate t) : stepFn p t = t := by
  unfold stepFn
  split_ifs with hd hw hm
  · rw [hi]; exact addDate_zero t ht
  · rw [hi, show (7 : Int) * 0 = 0 from by ring]; exact addDate_zero t ht
  · rw [hi]; exact addDate_zero t ht
  · rfl

/-- A loop whose step does not advance the date never terminates. -/
theorem nextDueLoop_stuck (fuel : Nat) (p : RecurrencePattern) (now t : GoTime)
    (hstep : stepFn p t = t) (hb : Before t now) :
    nextDueLoop fuel now p t = none := by
  induction fuel with
  | zero => rfl
  | succ n ih =>
    unfold nextDueLoop
    rw [if_pos hb, hstep]
    exact ih

/-- C10: for every validator-accepted pattern calculateNextDueDate
terminates — the weekday-restricted branch is bounded (its result does
not depend on the fuel at all) and the generic loop finishes once the
fuel covers the day gap; and the preconditions are necessary: with
interval 0, or with an unrecognized frequency, and an anchor before now,
the loop never advances and diverges (none for every fuel). -/
theorem calculateNextDueDate_termination (p : RecurrencePattern) (anchor now : GoTime)
    (hanchor : IsNormDate anchor) :
    (ValidPattern p → ∀ fuel, (absDay now - absDay anchor).toNat + 2 ≤ fuel →
        (calculateNextDueDate fuel now anchor p).isSome = true)
    ∧ (p.frequency = "weekly" → p.daysOfWeek ≠ [] → ∀ fuel1 fuel2,
        calculateNextDueDate fuel1 now anchor p = calculateNextDueDate fuel2 now anchor p)
    ∧ (p.interval = 0 → Before anchor now → ¬ (p.frequency = "weekly" ∧ p.daysOfWeek ≠ []) →
        ∀ fuel, calculateNextDueDate fuel now anchor p = none)
    ∧ (p.frequency ≠ "daily" → p.frequency ≠ "weekly" → p.frequency ≠ "monthly" →
        Before anchor now → ∀ fuel, calculateNextDueDate fuel now anchor p = none) := by
  refine ⟨?_, ?_, ?_, ?_⟩
  · intro hv fuel hfuel
    by_cases hc : p.frequency = "weekly" ∧ p.daysOfWeek ≠ []
    · unfold calculateNextDueDate
      rw [if_pos hc]
      rfl
    · unfold calculateNextDueDate
      rw [if_neg hc]
      obtain ⟨K, h1, _, _⟩ := nextDueLoop_first fuel p now anchor hv.1 hv.2.1 hanchor hfuel
      rw [h1]
      rfl
  · intro hf hne fuel1 fuel2
    unfold calculateNextDueDate
    rw [if_pos ⟨hf, hne⟩, if_pos ⟨hf, hne⟩]
  · intro hi hb hc fuel
    unfold calculateNextDueDate
    rw [if_neg hc]
    exact nextDueLoop_stuck fuel p now anchor (stepFn_zero_interval p anchor hi hanchor) hb
  · intro h1 h2 h3 hb fuel
    have hc : ¬ (p.frequency = "weekly" ∧ p.daysOfWeek ≠ []) := fun hcc => h2 hcc.1
    unfold calculateNextDueDate
    rw [if_neg hc]
    have hstep : stepFn p anchor = anchor := by
      unfold stepFn
      rw [if_neg h1, if_neg h2, if_neg h3]
    exact nextDueLoop_stuck fuel p now anchor hstep hb

/-- Witness for C10 at a concrete anchor, now and pattern (an interval-0
daily pattern before now, hence a diverging loop). -/
theorem calculateNextDueDate_termination_witness :
    ((ValidPattern ⟨"daily", 0, []⟩ → ∀ fuel,
        (absDay ⟨2024, 1, 2, 0⟩ - absDay ⟨2024, 1, 1, 0⟩).toNat + 2 ≤ fuel →
        (calculateNextDueDate fuel ⟨2024, 1, 2, 0⟩ ⟨2024, 1, 1, 0⟩ ⟨"daily", 0, []⟩).isSome = true)
    ∧ ((⟨"daily", 0, []⟩ : RecurrencePattern).frequency = "weekly" →
        (⟨"daily", 0, []⟩ : RecurrencePattern).daysOfWeek ≠ [] → ∀ fuel1 fuel2,
        calculateNextDueDate fuel1 ⟨2024, 1, 2, 0⟩ ⟨2024, 1, 1, 0⟩ ⟨"daily", 0, []⟩
          = calculateNextDueDate fuel2 ⟨2024, 1, 2, 0⟩ ⟨2024, 1, 1, 0⟩ ⟨"daily", 0, []⟩)
    ∧ ((⟨"daily", 0, []⟩ : RecurrencePattern).interval = 0 →
        Before ⟨2024, 1, 1, 0⟩ ⟨2024, 1, 2, 0⟩ →
        ¬ ((⟨"daily", 0, []⟩ : RecurrencePattern).frequency = "weekly"
            ∧ (⟨"daily", 0, []⟩ : RecurrencePattern).daysOfWeek ≠ []) →
        ∀ fuel, calculateNextDueDate fuel ⟨2024, 1, 2, 0⟩ ⟨2024, 1, 1, 0⟩ ⟨"daily", 0, []⟩ = none)
    ∧ ((⟨"daily", 0, []⟩ : RecurrencePattern).frequency ≠ "daily" →
        (⟨"daily", 0, []⟩ : RecurrencePattern).frequency ≠ "weekly" →
        (⟨"daily", 0, []⟩ : RecurrencePattern).frequency ≠ "monthly" →
        Before ⟨2024, 1, 1, 0⟩ ⟨2024, 1, 2, 0⟩ →
        ∀ fuel, calculateNextDueDate fuel ⟨2024, 1, 2, 0⟩ ⟨2024, 1, 1, 0⟩ ⟨"daily", 0, []⟩ = none))
    ∧ calculateNextDueDate 30 ⟨2024, 1, 2, 0⟩ ⟨2024, 1, 1, 0⟩ ⟨"daily", 0, []⟩ = none :=
  ⟨calculateNextDueDate_termination ⟨"daily", 0, []⟩ ⟨2024, 1, 1, 0⟩ ⟨2024, 1, 2, 0⟩ (by decide),
    by decide⟩

/-- Unfolding equation of mapLookup on a cons cell. -/
theorem mapLookup_cons {α : Type} (k : Int) (p : Int × α) (rest : List (Int × α)) :
    mapLookup k (p :: rest) = if p.1 = k then some p.2 else mapLookup k rest := rfl

/-- A hit write replaces in place. -/
theorem mapInsert_found {α : Type} (k : Int) (v w : α) (l : List (Int × α))
    (h : mapLookup k l = some w) :
    mapInsert k v l = l.map (fun p => if p.1 = k then (k, v) else p) := by
  unfold mapInsert
  rw [h]

/-- A fresh write appends. -/
theorem mapInsert_fresh {α : Type} (k : Int) (v : α) (l : List (Int × α))
    (h : mapLookup k l = none) :
    mapInsert k v l = l ++ [(k, v)] := by
  unfold mapInsert
  rw [h]

/-- Looking up the key of a replacement write finds the new value. -/
theorem mapLookup_map_replace {α : Type} (k : Int) (v : α) (l : List (Int × α)) :
    mapLookup k (l.map (fun p => if p.1 = k then (k, v) else p))
      = (mapLookup k l).map (fun _ => v) := by
  induction l with
  | nil => rfl
  | cons p rest ih =>
    by_cases hp : p.1 = k
    · simp only [List.map_cons, if_pos hp, mapLookup_cons]
      simp
    · simp only [List.map_cons, if_neg hp, mapLookup_cons, if_neg hp]
      exact ih

/-- Appending a fresh binding is found by its key. -/
theorem mapLookup_append_self {α : Type} (k : Int) (v : α) (l : List (Int × α))
    (h : mapLookup k l = none) :
    mapLookup k (l ++ [(k, v)]) = some v := by
  induction l with
  | nil =>
    simp [mapLookup_cons]
  | cons p rest ih =>
    rw [mapLookup_cons] at h
    rw [List.cons_append, mapLookup_cons]
    by_cases hp : p.1 = k
    · rw [if_pos hp] at h
      cases h
    · rw [if_neg hp] at h ⊢
      exact ih h

/-- Appending a binding does not change lookups of other keys. -/
theorem mapLookup_append_ne {α : Type} (k k2 : Int) (v : α) (l : List (Int × α))
    (hne : k2 ≠ k) :
    mapLookup k2 (l ++ [(k, v)]) = mapLookup k2 l := by
  induction l with
  | nil =>
    rw [List.nil_append, mapLookup_cons, if_neg (fun hc => hne hc.symm)]
  | cons p rest ih =>
    rw [List.cons_append, mapLookup_cons, mapLookup_cons]
    by_cases hp : p.1 = k2
    · rw [if_pos hp, if_pos hp]
    · rw [if_neg hp, if_neg hp]
      exact ih

/-- A replacement write does not change lookups of other keys. -/
theorem mapLookup_map_replace_ne {α : Type} (k k2 : Int) (v : α) (l : List (Int × α))
    (hne : k2 ≠ k) :
    mapLookup k2 (l.map (fun p => if p.1 = k then (k, v) else p)) = mapLookup k2 l := by
  induction l with
  | nil => rfl
  | cons p rest ih =>
    by_cases hp : p.1 = k
    · simp only [List.map_cons, if_pos hp, mapLookup_cons]
      rw [if_neg (fun hc => hne hc.symm), if_neg (by rw [hp]; exact fun hc => hne hc.symm)]
      exact ih
    · simp only [List.map_cons, if_neg hp, mapLookup_cons]
      by_cases hq : p.1 = k2
      · rw [if_pos hq, if_pos hq]
      · rw [if_neg hq, if_neg hq]
        exact ih

/-- Map write then read of the same key. -/
theorem mapLookup_insert_self {α : Type} (k : Int) (v : α) (l : List (Int × α)) :
    mapLookup k (mapInsert k v l) = some v := by
  cases h : mapLookup k l with
  | none =>
    rw [mapInsert_fresh k v l h]
    exact mapLookup_append_self k v l h
  | some w =>
    rw [mapInsert_found k v w l h, mapLookup_map_replace, h]
    rfl

/-- Map write then read of a different key. -/
theorem mapLookup_insert_ne {α : Type} (k k2 : Int) (v : α) (l : List (Int × α))
    (hne : k2 ≠ k) :
    mapLookup k2 (mapInsert k v l) = mapLookup k2 l := by
  cases h : mapLookup k l with
  | none =>
    rw [mapInsert_fresh k v l h]
    exact mapLookup_append_ne k k2 v l hne
  | some w =>
    rw [mapInsert_found k v w l h]
    exact mapLookup_map_replace_ne k k2 v l hne

/-- Inserting a fresh key grows the list by one entry. -/
theorem mapInsert_length_fresh {α : Type} (k : Int) (v : α) (l : List (Int × α))
    (h : mapLookup k l = none) :
    (mapInsert k v l).length = l.length + 1 := by
  rw [mapInsert_fresh k v l h]
  simp

/-- Lookup through a value-only transformation of every entry. -/
theorem mapLookup_map_val {α : Type} (g : α → α) (k : Int) (l : List (Int × α)) :
    mapLookup k (l.map (fun p => (p.1, g p.2))) = (mapLookup k l).map g := by
  induction l with
  | nil => rfl
  | cons p rest ih =>
    simp only [List.map_cons, mapLookup_cons]
    by_cases hp : p.1 = k
    · rw [if_pos hp, if_pos hp]
      rfl
    · rw [if_neg hp, if_neg hp]
      exact ih

/-- Erasing a key removes it from lookup. -/
theorem mapLookup_erase_self {α : Type} (k : Int) (l : List (Int × α)) :
    mapLookup k (mapErase k l) = none := by
  unfold mapErase
  induction l with
  | nil => rfl
  | cons p rest ih =>
    by_cases hp : p.1 = k
    · rw [List.filter_cons_of_neg (by simp [hp])]
      exact ih
    · rw [List.filter_cons_of_pos (by simp [hp]), mapLookup_cons, if_neg hp]
      exact ih

/-- Every key surviving an erase differs from the erased key. -/
theorem mapErase_keys {α : Type} (k : Int) (l : List (Int × α)) :
    ∀ q ∈ mapErase k l, q.1 ≠ k := by
  intro q hq
  unfold mapErase at hq
  have := List.of_mem_filter hq
  simpa using this

instance (p : RecurrencePattern) : Decidable (BadPattern p) := by
  unfold BadPattern
  infer_instance

/-- A bad pattern is rejected by the pattern validator. -/
theorem validateRecurrencePattern_bad (p : RecurrencePattern) (hb : BadPattern p) :
    ∃ e, validateRecurrencePattern p = Except.error e := by
  unfold validateRecurrencePattern
  by_cases hA : (p.frequency = "daily" ∨ p.frequency = "weekly" ∨ p.frequency = "monthly")
  · rw [if_neg (not_not_intro hA)]
    by_cases hI : p.interval < 1
    · rw [if_pos hI]
      exact ⟨_, rfl⟩
    · rw [if_neg hI]
      by_cases hW : (p.frequency = "weekly" ∧ 0 < p.daysOfWeek.length
          ∧ p.daysOfWeek.any (fun day => ! validDays day))
      · rw [if_pos hW]
        exact ⟨_, rfl⟩
      · exfalso
        rcases hb with h | h | ⟨hw, hne, day, hmem, hval⟩
        · exact h hA
        · exact hI h
        · refine hW ⟨hw, ?_, ?_⟩
          · exact List.length_pos.mpr hne
          · rw [List.any_eq_true]
            exact ⟨day, hmem, by rw [hval]; rfl⟩
  · rw [if_pos hA]
    exact ⟨_, rfl⟩

/-- A definition with a bad pattern is rejected by the definition
validator. -/
theorem validateRecurringDefinition_bad (d : RecurringItemDefinition)
    (hb : BadPattern d.pattern) :
    ∃ e, validateRecurringDefinition d = Except.error e := by
  unfold validateRecurringDefinition
  by_cases ht : d.title = ""
  · rw [if_pos ht]
    exact ⟨_, rfl⟩
  · rw [if_neg ht]
    obtain ⟨e, he⟩ := validateRecurrencePattern_bad d.pattern hb
    rw [he]
    exact ⟨_, rfl⟩

/-- C4: create definition, update definition, and convert-to-recurring
all reject a pattern with an unknown frequency, an interval below 1, or
(weekly, non-empty set) a non-canonical weekday name, and on such a
rejection they return the store completely unchanged (both collections
and both id counters). -/
theorem validation_rejects_before_mutation (fuel : Nat) (now : GoTime) (s : Store) (id : Int)
    (payload : RecurringItemDefinition) (hbad : BadPattern payload.pattern) :
    (∃ e, createRecurringDef fuel now s payload = some (s, Except.error e))
    ∧ (∃ e, updateRecurringDef s id payload = (s, Except.error e))
    ∧ (∃ e, convertTodoRecurring fuel now s id true payload.pattern = some (s, Except.error e)) := by
  obtain ⟨e, he⟩ := validateRecurringDefinition_bad payload hbad
  obtain ⟨e2, he2⟩ := validateRecurrencePattern_bad payload.pattern hbad
  refine ⟨⟨e, ?_⟩, ⟨e, ?_⟩, ⟨e2, ?_⟩⟩
  · unfold createRecurringDef
    rw [he]
  · unfold updateRecurringDef
    rw [he]
  · unfold convertTodoRecurring
    rw [if_pos rfl, he2]

/-- Witness for C4: a pattern with an unknown frequency is rejected by
all three operations, leaving the empty store unchanged. -/
theorem validation_rejects_before_mutation_witness :
    (∃ e, createRecurringDef 9 ⟨2024, 1, 1, 0⟩ ⟨[], [], 1, 1⟩
        ⟨0, "t", "", [], ⟨"hourly", 1, []⟩, ⟨2024, 1, 1, 0⟩, ⟨2024, 1, 1, 0⟩⟩
        = some (⟨[], [], 1, 1⟩, Except.error e))
    ∧ (∃ e, updateRecurringDef ⟨[], [], 1, 1⟩ 5
        ⟨0, "t", "", [], ⟨"hourly", 1, []⟩, ⟨2024, 1, 1, 0⟩, ⟨2024, 1, 1, 0⟩⟩
        = (⟨[], [], 1, 1⟩, Except.error e))
    ∧ (∃ e, convertTodoRecurring 9 ⟨2024, 1, 1, 0⟩ ⟨[], [], 1, 1⟩ 5 true ⟨"hourly", 1, []⟩
        = some (⟨[], [], 1, 1⟩, Except.error e)) :=
  validation_rejects_before_mutation 9 ⟨2024, 1, 1, 0⟩ ⟨[], [], 1, 1⟩ 5
    ⟨0, "t", "", [], ⟨"hourly", 1, []⟩, ⟨2024, 1, 1, 0⟩, ⟨2024, 1, 1, 0⟩⟩ (by decide)

/-- C5: creating a recurring definition with a valid payload stores the
definition under the next definition id and creates exactly one new
TodoItem (count +1) copying title/description/assignedTo, recurring and
linked to the new definition, due at the computed next due date, placed
at the end of the list; the response carries the definition. -/
theorem createRecurringDef_spec (fuel : Nat) (now : GoTime) (s : Store)
    (payload : RecurringItemDefinition) (due : GoTime)
    (hval : validateRecurringDefinition payload = Except.ok ())
    (hcalc : calculateNextDueDate fuel now payload.startDate payload.pattern = some due)
    (hfresh : mapLookup s.nextTodoID s.todos = none) :
    ∃ s2 d, createRecurringDef fuel now s payload = some (s2, Except.ok d)
      ∧ d = { payload with id := s.nextRecurringID, createdAt := now }
      ∧ mapLookup s.nextRecurringID s2.recurringDefs = some d
      ∧ s2.todos.length = s.todos.length + 1
      ∧ ∃ t, mapLookup s.nextTodoID s2.todos = some t
          ∧ t.title = payload.title ∧ t.description = payload.description
          ∧ t.assignedTo = payload.assignedTo ∧ t.completed = false
          ∧ t.isRecurring = true ∧ t.recurrenceId = some s.nextRecurringID
          ∧ t.dueDate = some due ∧ t.position = (s.todos.length : Int)
          ∧ t.createdAt = now := by
  simp only [createRecurringDef, hval, hcalc]
  refine ⟨_, _, rfl, rfl, ?_, ?_, ?_⟩
  · exact mapLookup_insert_self _ _ _
  · exact mapInsert_length_fresh _ _ _ hfresh
  · exact ⟨_, mapLookup_insert_self _ _ _, rfl, rfl, rfl, rfl, rfl, rfl, rfl, rfl, rfl⟩

/-- Witness for C5: creating a daily definition in the empty store. -/
theorem createRecurringDef_spec_witness :
    ∃ s2 d, createRecurringDef 5 ⟨2024, 1, 2, 0⟩ ⟨[], [], 1, 1⟩
        ⟨0, "Water plants", "", [], ⟨"daily", 1, []⟩, ⟨2024, 1, 1, 0⟩, ⟨2024, 1, 1, 0⟩⟩
        = some (s2, Except.ok d)
      ∧ d = ⟨1, "Water plants", "", [], ⟨"daily", 1, []⟩, ⟨2024, 1, 1, 0⟩, ⟨2024, 1, 2, 0⟩⟩
      ∧ mapLookup 1 s2.recurringDefs = some d
      ∧ s2.todos.length = 0 + 1
      ∧ ∃ t, mapLookup 1 s2.todos = some t
          ∧ t.title = "Water plants" ∧ t.description = ""
          ∧ t.assignedTo = [] ∧ t.completed = false
          ∧ t.isRecurring = true ∧ t.recurrenceId = some 1
          ∧ t.dueDate = some ⟨2024, 1, 2, 0⟩ ∧ t.position = (0 : Int)
          ∧ t.createdAt = ⟨2024, 1, 2, 0⟩ :=
  createRecurringDef_spec 5 ⟨2024, 1, 2, 0⟩ ⟨[], [], 1, 1⟩
    ⟨0, "Water plants", "", [], ⟨"daily", 1, []⟩, ⟨2024, 1, 1, 0⟩, ⟨2024, 1, 1, 0⟩⟩
    ⟨2024, 1, 2, 0⟩ rfl rfl rfl

/-- C6: deleting an existing definition removes it from the definition
collection, deletes no todo (keys and count unchanged), clears
isRecurring/recurrenceId on every todo referencing the deleted id while
leaving all its other fields (dueDate, completed, completedAt, position,
title) unchanged, and leaves todos not referencing the id entirely
unchanged. -/
theorem deleteRecurringDef_spec (s : Store) (id : Int) (d0 : RecurringItemDefinition)
    (hex : mapLookup id s.recurringDefs = some d0) :
    ∃ s2, deleteRecurringDef s id = (s2, Except.ok ())
      ∧ mapLookup id s2.recurringDefs = none
      ∧ (∀ q ∈ s2.recurringDefs, q.1 ≠ id)
      ∧ s2.todos.length = s.todos.length
      ∧ s2.todos.map Prod.fst = s.todos.map Prod.fst
      ∧ ∀ k t, mapLookup k s.todos = some t →
          ∃ t2, mapLookup k s2.todos = some t2
            ∧ (t.recurrenceId = some id →
                t2 = { t with isRecurring := false, recurrenceId := none })
            ∧ (t.recurrenceId ≠ some id → t2 = t)
            ∧ t2.dueDate = t.dueDate ∧ t2.completed = t.completed
            ∧ t2.completedAt = t.completedAt ∧ t2.position = t.position
            ∧ t2.title = t.title := by
  simp only [deleteRecurringDef, hex]
  refine ⟨_, rfl, ?_, ?_, ?_, ?_, ?_⟩
  · exact mapLookup_erase_self _ _
  · exact mapErase_keys _ _
  · simp
  · rw [List.map_map]
    exact List.map_congr_left fun p _ => rfl
  · intro k t hk
    refine ⟨unlinkTodo id t, ?_, ?_, ?_, ?_, ?_, ?_, ?_, ?_⟩
    · rw [mapLookup_map_val (unlinkTodo id) k s.todos, hk]
      rfl
    · intro h
      unfold unlinkTodo
      rw [if_pos h]
    · intro h
      unfold unlinkTodo
      rw [if_neg h]
    · unfold unlinkTodo
      split <;> rfl
    · unfold unlinkTodo
      split <;> rfl
    · unfold unlinkTodo
      split <;> rfl
    · unfold unlinkTodo
      split <;> rfl
    · unfold unlinkTodo
      split <;> rfl

/-- Witness for C6: deleting definition 1 unlinks the one todo
referencing it. -/
theorem deleteRecurringDef_spec_witness :
    ∃ s2, deleteRecurringDef
        ⟨[(1, ⟨1, "a", "", [], false, 0, true, some 1, some ⟨2024, 1, 2, 0⟩, none, ⟨2024, 1, 1, 0⟩⟩)],
          [(1, ⟨1, "a", "", [], ⟨"daily", 1, []⟩, ⟨2024, 1, 1, 0⟩, ⟨2024, 1, 1, 0⟩⟩)], 2, 2⟩ 1
        = (s2, Except.ok ())
      ∧ mapLookup 1 s2.recurringDefs = none
      ∧ (∀ q ∈ s2.recurringDefs, q.1 ≠ 1)
      ∧ s2.todos.length = 1
      ∧ s2.todos.map Prod.fst = [1]
      ∧ ∀ k t, mapLookup k
            [(1, (⟨1, "a", "", [], false, 0, true, some 1, some ⟨2024, 1, 2, 0⟩, none,
              ⟨2024, 1, 1, 0⟩⟩ : TodoItem))] = some t →
          ∃ t2, mapLookup k s2.todos = some t2
            ∧ (t.recurrenceId = some 1 →
                t2 = { t with isRecurring := false, recurrenceId := none })
            ∧ (t.recurrenceId ≠ some 1 → t2 = t)
            ∧ t2.dueDate = t.dueDate ∧ t2.completed = t.completed
            ∧ t2.completedAt = t.completedAt ∧ t2.position = t.position
            ∧ t2.title = t.title :=
  deleteRecurringDef_spec
    ⟨[(1, ⟨1, "a", "", [], false, 0, true, some 1, some ⟨2024, 1, 2, 0⟩, none, ⟨2024, 1, 1, 0⟩⟩)],
      [(1, ⟨1, "a", "", [], ⟨"daily", 1, []⟩, ⟨2024, 1, 1, 0⟩, ⟨2024, 1, 1, 0⟩⟩)], 2, 2⟩ 1
    ⟨1, "a", "", [], ⟨"daily", 1, []⟩, ⟨2024, 1, 1, 0⟩, ⟨2024, 1, 1, 0⟩⟩ rfl

/-- C7: updating an existing definition with a valid payload overwrites
the definition's title/description/assignedTo/pattern and propagates
title/description/assignedTo onto every linked not-completed todo, while
every completed or unlinked todo is left entirely unchanged and no
todo's dueDate or completedAt is modified. -/
theorem updateRecurringDef_spec (s : Store) (id : Int) (updates d0 : RecurringItemDefinition)
    (hval : validateRecurringDefinition updates = Except.ok ())
    (hex : mapLookup id s.recurringDefs = some d0) :
    ∃ s2 d1, updateRecurringDef s id updates = (s2, Except.ok d1)
      ∧ d1 = { d0 with
               title := updates.title
               description := updates.description
               assignedTo := updates.assignedTo
               pattern := updates.pattern }
      ∧ mapLookup id s2.recurringDefs = some d1
      ∧ ∀ k t, mapLookup k s.todos = some t →
          ∃ t2, mapLookup k s2.todos = some t2
            ∧ (t.recurrenceId = some id ∧ t.completed = false →
                t2 = { t with
                       title := updates.title
                       description := updates.description
                       assignedTo := updates.assignedTo })
            ∧ (¬ (t.recurrenceId = some id ∧ t.completed = false) → t2 = t)
            ∧ t2.dueDate = t.dueDate ∧ t2.completedAt = t.completedAt
            ∧ t2.completed = t.completed ∧ t2.position = t.position := by
  simp only [updateRecurringDef, hval, hex]
  refine ⟨_, _, rfl, rfl, ?_, ?_⟩
  · exact mapLookup_insert_self _ _ _
  · intro k t hk
    refine ⟨_, by rw [mapLookup_map_val _ k s.todos, hk]; rfl, ?_, ?_, ?_, ?_, ?_, ?_⟩
    · intro h
      unfold propagateDef
      rw [if_pos h]
    · intro h
      unfold propagateDef
      rw [if_neg h]
    · unfold propagateDef
      split <;> rfl
    · unfold propagateDef
      split <;> rfl
    · unfold propagateDef
      split <;> rfl
    · unfold propagateDef
      split <;> rfl

/-- Witness for C7: the incomplete linked todo takes the new title, the
completed linked todo keeps its snapshot. -/
theorem updateRecurringDef_spec_witness :
    ∃ s2 d1, updateRecurringDef
        ⟨[(1, ⟨1, "old", "", [], false, 0, true, some 1, some ⟨2024, 1, 2, 0⟩, none, ⟨2024, 1, 1, 0⟩⟩),
          (2, ⟨2, "old", "", [], true, 1, true, some 1, some ⟨2024, 1, 2, 0⟩,
            some ⟨2024, 1, 3, 0⟩, ⟨2024, 1, 1, 0⟩⟩)],
          [(1, ⟨1, "old", "", [], ⟨"daily", 1, []⟩, ⟨2024, 1, 1, 0⟩, ⟨2024, 1, 1, 0⟩⟩)], 3, 2⟩ 1
        ⟨0, "new", "d2", ["bob"], ⟨"weekly", 2, []⟩, ⟨2024, 1, 1, 0⟩, ⟨2024, 1, 1, 0⟩⟩
        = (s2, Except.ok d1)
      ∧ d1 = ⟨1, "new", "d2", ["bob"], ⟨"weekly", 2, []⟩, ⟨2024, 1, 1, 0⟩, ⟨2024, 1, 1, 0⟩⟩
      ∧ mapLookup 1 s2.recurringDefs = some d1
      ∧ ∀ k t, mapLookup k
            [(1, (⟨1, "old", "", [], false, 0, true, some 1, some ⟨2024, 1, 2, 0⟩, none,
              ⟨2024, 1, 1, 0⟩⟩ : TodoItem)),
             (2, (⟨2, "old", "", [], true, 1, true, some 1, some ⟨2024, 1, 2, 0⟩,
              some ⟨2024, 1, 3, 0⟩, ⟨2024, 1, 1, 0⟩⟩ : TodoItem))] = some t →
          ∃ t2, mapLookup k s2.todos = some t2
            ∧ (t.recurrenceId = some 1 ∧ t.completed = false →
                t2 = { t with title := "new", description := "d2", assignedTo := ["bob"] })
            ∧ (¬ (t.recurrenceId = some 1 ∧ t.completed = false) → t2 = t)
            ∧ t2.dueDate = t.dueDate ∧ t2.completedAt = t.completedAt
            ∧ t2.completed = t.completed ∧ t2.position = t.position :=
  updateRecurringDef_spec
    ⟨[(1, ⟨1, "old", "", [], false, 0, true, some 1, some ⟨2024, 1, 2, 0⟩, none, ⟨2024, 1, 1, 0⟩⟩),
      (2, ⟨2, "old", "", [], true, 1, true, some 1, some ⟨2024, 1, 2, 0⟩,
        some ⟨2024, 1, 3, 0⟩, ⟨2024, 1, 1, 0⟩⟩)],
      [(1, ⟨1, "old", "", [], ⟨"daily", 1, []⟩, ⟨2024, 1, 1, 0⟩, ⟨2024, 1, 1, 0⟩⟩)], 3, 2⟩ 1
    ⟨0, "new", "d2", ["bob"], ⟨"weekly", 2, []⟩, ⟨2024, 1, 1, 0⟩, ⟨2024, 1, 1, 0⟩⟩
    ⟨1, "old", "", [], ⟨"daily", 1, []⟩, ⟨2024, 1, 1, 0⟩, ⟨2024, 1, 1, 0⟩⟩ rfl rfl

/-- completedAt after one application of the update: stamped with now
exactly when the payload sets completed and no stamp exists yet. -/
theorem applyTodoUpdate_completedAt (now : GoTime) (updates todo : TodoItem) :
    (applyTodoUpdate now updates todo).completedAt
      = if updates.completed = true ∧ todo.completedAt = none
        then some now else todo.completedAt := by
  simp only [applyTodoUpdate]
  by_cases h : updates.completed = true ∧ todo.completedAt = none
  · simp only [if_pos h]
    cases updates.dueDate <;> rfl
  · simp only [if_neg h]
    cases updates.dueDate <;> rfl

/-- The four directly-overwritten fields after one update. -/
theorem applyTodoUpdate_fields (now : GoTime) (updates todo : TodoItem) :
    (applyTodoUpdate now updates todo).title = updates.title
    ∧ (applyTodoUpdate now updates todo).description = updates.description
    ∧ (applyTodoUpdate now updates todo).assignedTo = updates.assignedTo
    ∧ (applyTodoUpdate now updates todo).completed = updates.completed := by
  simp only [applyTodoUpdate]
  by_cases h : updates.completed = true ∧ todo.completedAt = none
  · simp only [if_pos h]
    cases updates.dueDate <;> exact ⟨rfl, rfl, rfl, rfl⟩
  · simp only [if_neg h]
    cases updates.dueDate <;> exact ⟨rfl, rfl, rfl, rfl⟩

/-- dueDate after one update: taken from the payload when supplied,
retained otherwise. -/
theorem applyTodoUpdate_dueDate (now : GoTime) (updates todo : TodoItem) :
    (∀ d, updates.dueDate = some d → (applyTodoUpdate now updates todo).dueDate = some d)
    ∧ (updates.dueDate = none → (applyTodoUpdate now updates todo).dueDate = todo.dueDate) := by
  simp only [applyTodoUpdate]
  constructor
  · intro d hd
    rw [hd]
  · intro hd
    rw [hd]
    by_cases h : updates.completed = true ∧ todo.completedAt = none
    · simp only [if_pos h]
    · simp only [if_neg h]

/-- Inversion for a successful updateTodo call. -/
theorem updateTodo_ok_inv (now : GoTime) (s : Store) (id : Int) (updates : TodoItem)
    (s2 : Store) (t2 : TodoItem)
    (hok : updateTodo now s id updates = (s2, Except.ok t2)) :
    ∃ todo, mapLookup id s.todos = some todo
      ∧ t2 = applyTodoUpdate now updates todo
      ∧ s2 = { s with todos := mapInsert id t2 s.todos } := by
  unfold updateTodo at hok
  cases hv : validateTodoItem updates with
  | error e =>
    rw [hv] at hok
    simp at hok
  | ok u =>
    rw [hv] at hok
    cases hlk : mapLookup id s.todos with
    | none =>
      rw [hlk] at hok
      simp at hok
    | some todo =>
      rw [hlk] at hok
      rw [Prod.mk.injEq] at hok
      obtain ⟨h1, h2⟩ := hok
      injection h2 with h3
      exact ⟨todo, rfl, h3.symm, by rw [← h1, h3]⟩

/-- A single updateTodo call never clears a set completedAt of any
stored todo (the updated one or any other). -/
theorem updateTodo_preserves_completedAt (now : GoTime) (s : Store) (id k : Int)
    (updates : TodoItem) (t : TodoItem) (x : GoTime)
    (hk : mapLookup k s.todos = some t) (hx : t.completedAt = some x) :
    ∃ t2, mapLookup k ((updateTodo now s id updates).1).todos = some t2
      ∧ t2.completedAt = some x := by
  unfold updateTodo
  cases hv : validateTodoItem updates with
  | error e => exact ⟨t, hk, hx⟩
  | ok u =>
    cases hlk : mapLookup id s.todos with
    | none => exact ⟨t, hk, hx⟩
    | some todo =>
      by_cases hkid : k = id
      · refine ⟨applyTodoUpdate now updates todo, ?_, ?_⟩
        · show mapLookup k (mapInsert id (applyTodoUpdate now updates todo) s.todos) = _
          rw [hkid]
          exact mapLookup_insert_self _ _ _
        · have htt : todo = t := by
            rw [hkid] at hk
            rw [hk] at hlk
            injection hlk with he
            exact he.symm
          rw [applyTodoUpdate_completedAt, htt, hx]
          simp
      · refine ⟨t, ?_, hx⟩
        show mapLookup k (mapInsert id (applyTodoUpdate now updates todo) s.todos) = _
        rw [mapLookup_insert_ne id k _ _ hkid]
        exact hk

/-- No sequence of updateTodo calls ever clears a set completedAt. -/
theorem applyUpdates_preserves_completedAt (seq : List (GoTime × Int × TodoItem)) :
    ∀ (s : Store) (k : Int) (t : TodoItem) (x : GoTime),
      mapLookup k s.todos = some t → t.completedAt = some x →
      ∃ t2, mapLookup k (applyUpdates s seq).todos = some t2 ∧ t2.completedAt = some x := by
  induction seq with
  | nil => intro s k t x hk hx; exact ⟨t, hk, hx⟩
  | cons u rest ih =>
    intro s k t x hk hx
    obtain ⟨t1, h1, hx1⟩ := updateTodo_preserves_completedAt u.1 s u.2.1 k u.2.2 t x hk hx
    exact ih _ k t1 x h1 hx1

/-- C8: updateTodo stamps completedAt with the current instant exactly
when the payload sets completed and no stamp exists yet; a stamp that is
already set survives the update unchanged, and survives every further
sequence of updates (including completed true-false-true cycles). -/
theorem updateTodo_completedAt_spec (now : GoTime) (s : Store) (id : Int)
    (updates todo : TodoItem) (s2 : Store) (t2 : TodoItem)
    (hlk : mapLookup id s.todos = some todo)
    (hok : updateTodo now s id updates = (s2, Except.ok t2)) :
    (t2.completedAt = if updates.completed = true ∧ todo.completedAt = none
        then some now else todo.completedAt)
    ∧ (∀ x, todo.completedAt = some x → t2.completedAt = some x)
    ∧ (∀ x, t2.completedAt = some x → ∀ seq : List (GoTime × Int × TodoItem),
        ∃ t3, mapLookup id (applyUpdates s2 seq).todos = some t3
          ∧ t3.completedAt = some x) := by
  obtain ⟨todo0, hlk0, ht2, hs2⟩ := updateTodo_ok_inv now s id updates s2 t2 hok
  have htodo : todo0 = todo := by
    rw [hlk] at hlk0
    injection hlk0 with he
    exact he.symm
  subst htodo
  refine ⟨?_, ?_, ?_⟩
  · rw [ht2, applyTodoUpdate_completedAt]
  · intro x hx
    rw [ht2, applyTodoUpdate_completedAt]
    rw [hx]
    simp
  · intro x hx seq
    refine applyUpdates_preserves_completedAt seq s2 id t2 x ?_ hx
    rw [hs2]
    exact mapLookup_insert_self _ _ _

/-- Witness for C8: completing an unstamped todo stamps it with now. -/
theorem updateTodo_completedAt_spec_witness :
    ((⟨1, "a", "", [], true, 0, false, none, none, some ⟨2024, 1, 5, 0⟩,
        ⟨2024, 1, 1, 0⟩⟩ : TodoItem).completedAt
      = if (⟨0, "a", "", [], true, 0, false, none, none, none,
            ⟨2024, 1, 1, 0⟩⟩ : TodoItem).completed = true
          ∧ (⟨1, "a", "", [], false, 0, false, none, none, none,
            ⟨2024, 1, 1, 0⟩⟩ : TodoItem).completedAt = none
        then some ⟨2024, 1, 5, 0⟩
        else (⟨1, "a", "", [], false, 0, false, none, none, none,
            ⟨2024, 1, 1, 0⟩⟩ : TodoItem).completedAt)
    ∧ (∀ x, (⟨1, "a", "", [], false, 0, false, none, none, none,
        ⟨2024, 1, 1, 0⟩⟩ : TodoItem).completedAt = some x →
        (⟨1, "a", "", [], true, 0, false, none, none, some ⟨2024, 1, 5, 0⟩,
          ⟨2024, 1, 1, 0⟩⟩ : TodoItem).completedAt = some x)
    ∧ (∀ x, (⟨1, "a", "", [], true, 0, false, none, none, some ⟨2024, 1, 5, 0⟩,
        ⟨2024, 1, 1, 0⟩⟩ : TodoItem).completedAt = some x →
        ∀ seq : List (GoTime × Int × TodoItem),
        ∃ t3, mapLookup 1 (applyUpdates
            ⟨[(1, ⟨1, "a", "", [], true, 0, false, none, none, some ⟨2024, 1, 5, 0⟩,
              ⟨2024, 1, 1, 0⟩⟩)], [], 2, 1⟩ seq).todos = some t3
          ∧ t3.completedAt = some x) :=
  updateTodo_completedAt_spec ⟨2024, 1, 5, 0⟩
    ⟨[(1, ⟨1, "a", "", [], false, 0, false, none, none, none, ⟨2024, 1, 1, 0⟩⟩)], [], 2, 1⟩ 1
    ⟨0, "a", "", [], true, 0, false, none, none, none, ⟨2024, 1, 1, 0⟩⟩
    ⟨1, "a", "", [], false, 0, false, none, none, none, ⟨2024, 1, 1, 0⟩⟩
    ⟨[(1, ⟨1, "a", "", [], true, 0, false, none, none, some ⟨2024, 1, 5, 0⟩,
      ⟨2024, 1, 1, 0⟩⟩)], [], 2, 1⟩
    ⟨1, "a", "", [], true, 0, false, none, none, some ⟨2024, 1, 5, 0⟩, ⟨2024, 1, 1, 0⟩⟩
    rfl rfl

/-- Counterexample to C9 as stated: a valid update payload whose dueDate
is nil leaves the stored dueDate (2024-01-01) in place instead of
overwriting it with the supplied value, so dueDate is not a direct field
overwrite. -/
theorem updateTodo_dueDate_counterexample :
    ((updateTodo ⟨2024, 1, 2, 0⟩
        ⟨[(1, ⟨1, "a", "", [], false, 0, false, none, some ⟨2024, 1, 1, 0⟩, none,
          ⟨2023, 1, 1, 0⟩⟩)], [], 2, 1⟩ 1
        ⟨0, "b", "", [], false, 0, false, none, none, none, ⟨2023, 1, 1, 0⟩⟩).2.map
          TodoItem.dueDate = Except.ok (some ⟨2024, 1, 1, 0⟩))
    ∧ (⟨0, "b", "", [], false, 0, false, none, none, none,
        ⟨2023, 1, 1, 0⟩⟩ : TodoItem).dueDate = none := by
  exact ⟨rfl, rfl⟩

/-- C9 amended: a regular todo update on an existing id directly
overwrites title, description, assignedTo and completed with the
supplied values; dueDate is overwritten only when the payload supplies
one, and is retained unchanged when the payload's dueDate is nil. -/
theorem updateTodo_overwrites_fields (now : GoTime) (s : Store) (id : Int)
    (updates todo : TodoItem) (s2 : Store) (t2 : TodoItem)
    (hlk : mapLookup id s.todos = some todo)
    (hok : updateTodo now s id updates = (s2, Except.ok t2)) :
    t2.title = updates.title ∧ t2.description = updates.description
    ∧ t2.assignedTo = updates.assignedTo ∧ t2.completed = updates.completed
    ∧ (∀ d, updates.dueDate = some d → t2.dueDate = some d)
    ∧ (updates.dueDate = none → t2.dueDate = todo.dueDate)
    ∧ mapLookup id s2.todos = some t2 := by
  obtain ⟨todo0, hlk0, ht2, hs2⟩ := updateTodo_ok_inv now s id updates s2 t2 hok
  have htodo : todo0 = todo := by
    rw [hlk] at hlk0
    injection hlk0 with he
    exact he.symm
  rw [htodo] at ht2
  obtain ⟨hf1, hf2, hf3, hf4⟩ := applyTodoUpdate_fields now updates todo
  obtain ⟨hd1, hd2⟩ := applyTodoUpdate_dueDate now updates todo
  subst ht2
  refine ⟨hf1, hf2, hf3, hf4, hd1, hd2, ?_⟩
  rw [hs2]
  exact mapLookup_insert_self _ _ _

/-- Witness for the amended C9. -/
theorem updateTodo_overwrites_fields_witness :
    (⟨1, "b", "new", ["bob"], true, 0, false, none, some ⟨2024, 1, 1, 0⟩, some ⟨2024, 1, 2, 0⟩,
        ⟨2023, 1, 1, 0⟩⟩ : TodoItem).title = "b"
    ∧ (⟨1, "b", "new", ["bob"], true, 0, false, none, some ⟨2024, 1, 1, 0⟩, some ⟨2024, 1, 2, 0⟩,
        ⟨2023, 1, 1, 0⟩⟩ : TodoItem).description = "new"
    ∧ (⟨1, "b", "new", ["bob"], true, 0, false, none, some ⟨2024, 1, 1, 0⟩, some ⟨2024, 1, 2, 0⟩,
        ⟨2023, 1, 1, 0⟩⟩ : TodoItem).assignedTo = ["bob"]
    ∧ (⟨1, "b", "new", ["bob"], true, 0, false, none, some ⟨2024, 1, 1, 0⟩, some ⟨2024, 1, 2, 0⟩,
        ⟨2023, 1, 1, 0⟩⟩ : TodoItem).completed = true
    ∧ (∀ d, (⟨0, "b", "new", ["bob"], true, 0, false, none, none, none,
        ⟨2023, 1, 1, 0⟩⟩ : TodoItem).dueDate = some d →
        (⟨1, "b", "new", ["bob"], true, 0, false, none, some ⟨2024, 1, 1, 0⟩,
          some ⟨2024, 1, 2, 0⟩, ⟨2023, 1, 1, 0⟩⟩ : TodoItem).dueDate = some d)
    ∧ ((⟨0, "b", "new", ["bob"], true, 0, false, none, none, none,
        ⟨2023, 1, 1, 0⟩⟩ : TodoItem).dueDate = none →
        (⟨1, "b", "new", ["bob"], true, 0, false, none, some ⟨2024, 1, 1, 0⟩,
          some ⟨2024, 1, 2, 0⟩, ⟨2023, 1, 1, 0⟩⟩ : TodoItem).dueDate
          = (⟨1, "a", "old", ["alice"], false, 0, false, none, some ⟨2024, 1, 1, 0⟩, none,
            ⟨2023, 1, 1, 0⟩⟩ : TodoItem).dueDate)
    ∧ mapLookup 1 [(1, (⟨1, "b", "new", ["bob"], true, 0, false, none, some ⟨2024, 1, 1, 0⟩,
        some ⟨2024, 1, 2, 0⟩, ⟨2023, 1, 1, 0⟩⟩ : TodoItem))]
        = some ⟨1, "b", "new", ["bob"], true, 0, false, none, some ⟨2024, 1, 1, 0⟩,
          some ⟨2024, 1, 2, 0⟩, ⟨2023, 1, 1, 0⟩⟩ :=
  updateTodo_overwrites_fields ⟨2024, 1, 2, 0⟩
    ⟨[(1, ⟨1, "a", "old", ["alice"], false, 0, false, none, some ⟨2024, 1, 1, 0⟩, none,
      ⟨2023, 1, 1, 0⟩⟩)], [], 2, 1⟩ 1
    ⟨0, "b", "new", ["bob"], true, 0, false, none, none, none, ⟨2023, 1, 1, 0⟩⟩
    ⟨1, "a", "old", ["alice"], false, 0, false, none, some ⟨2024, 1, 1, 0⟩, none,
      ⟨2023, 1, 1, 0⟩⟩
    ⟨[(1, ⟨1, "b", "new", ["bob"], true, 0, false, none, some ⟨2024, 1, 1, 0⟩,
      some ⟨2024, 1, 2, 0⟩, ⟨2023, 1, 1, 0⟩⟩)], [], 2, 1⟩
    ⟨1, "b", "new", ["bob"], true, 0, false, none, some ⟨2024, 1, 1, 0⟩, some ⟨2024, 1, 2, 0⟩,
      ⟨2023, 1, 1, 0⟩⟩ rfl rfl
